import Mathlib

/-!
Verification development for the pilmoji-cached repository.

The Python sources (`pilmoji/helpers.py`, `pilmoji/core.py`,
`pilmoji/source.py`) are shallowly embedded below:

* the tokenizer (`_parse_line`, `to_nodes`, `EMOJI_REGEX`) is embedded over
  `List Char`, with the set of known unicode emoji sequences kept as an
  explicit parameter `emojis : List (List Char)` (the source builds this list
  from the `emoji` package, sorted by length in decreasing order, and joins it
  with the fixed Discord custom-emoji grammar into one alternation);
* the numeric formulas (`round`, `int`) use `ℚ` together with explicit
  embeddings of Python's `round` (round-half-to-even) and `int` (truncation);
* the stateful session (`PilmojiMain`, `CachedHTTPBasedSource`,
  `HTTPBasedSource.request`, `PilmojiDrawer.text`) is embedded as a state
  monad over an explicit session state: memory caches, a durable (disk)
  store, an indexed table of byte streams with read positions (`BytesIO`),
  and an event trace recording network requests, disk reads/writes,
  memory-cache writes, native text draw calls and bitmap pastes.
  Backend (PIL) measurement calls are kept as function parameters, and the
  per-line `asyncio.gather` fan-out is linearised in source order.
-/

namespace Pilmoji

/-! ### Tokenizer (`pilmoji/helpers.py`) -/

/-- `NodeType` from `helpers.py`. -/
inductive NodeType
  | text
  | emoji
  | discord_emoji
deriving DecidableEq, Repr

/-- `Node` from `helpers.py`: a typed run of one line. -/
structure Node where
  type : NodeType
  content : List Char
deriving DecidableEq, Repr

/-- Character class `[a-zA-Z0-9_]` of the Discord custom-emoji grammar. -/
def isNameChar (c : Char) : Bool :=
  c.isAlpha || c.isDigit || c = '_'

/-- Length of the maximal run of characters satisfying `p` at the head. -/
def runLen (p : Char → Bool) : List Char → Nat
  | [] => 0
  | c :: rest => if p c then runLen p rest + 1 else 0

/-- Matcher for the tail `:name:digits>` of the Discord grammar
`<a?:[a-zA-Z0-9_]\x7b1,32\x7d:[0-9]\x7b17,22\x7d>` (from `_DISCORD_EMOJI_REGEX`
in `helpers.py`), returning the number of characters consumed.  A greedy
bounded repetition over a class that excludes the following delimiter is
equivalent to taking the maximal run and checking its length bounds. -/
def discordTail (s : List Char) : Option Nat :=
  match s with
  | ':' :: r =>
    if 1 ≤ runLen isNameChar r ∧ runLen isNameChar r ≤ 32 then
      match r.drop (runLen isNameChar r) with
      | ':' :: r2 =>
        if 17 ≤ runLen Char.isDigit r2 ∧ runLen Char.isDigit r2 ≤ 22 then
          match r2.drop (runLen Char.isDigit r2) with
          | '>' :: _ =>
            some (1 + runLen isNameChar r + (1 + runLen Char.isDigit r2 + 1))
          | _ => none
        else none
      | _ => none
    else none
  | _ => none

/-- Full Discord custom-emoji matcher at the current position: `<`, then a
greedy optional `a` (tried first, with backtracking), then `discordTail`. -/
def discordMatch (s : List Char) : Option Nat :=
  match s with
  | '<' :: rest =>
    (match rest with
     | 'a' :: rest2 => (discordTail rest2).map (fun n => 2 + n)
     | _ => none).orElse
    (fun _ => (discordTail rest).map (fun n => 1 + n))
  | _ => none

/-- First emoji alternative of `EMOJI_REGEX` matching at the head of `s`.
The source joins the alternatives in list order (sorted longest first), and
Python alternation takes the first alternative that matches at a position.
Empty alternatives never occur in the source data (`re.escape` of a
non-empty emoji) and are skipped. -/
def findEmoji (emojis : List (List Char)) (s : List Char) : Option (List Char) :=
  emojis.find? (fun e => !e.isEmpty && e.isPrefixOf s)

/-- Length matched by `EMOJI_REGEX` at the head of `s`: unicode emoji
alternatives first (in list order), then the Discord grammar. -/
def selectMatch (emojis : List (List Char)) (s : List Char) : Option Nat :=
  match findEmoji emojis s with
  | some e => some e.length
  | none => discordMatch s

/-- Scanner implementing `EMOJI_REGEX.split(line)` with one capture group:
the output alternates unmatched chunks (tag `false`, possibly empty) and
matched chunks (tag `true`), starting and ending with an unmatched chunk.
`acc` is the reversed text accumulated since the last match; `fuel` bounds
the recursion (every step consumes at least one character). -/
def splitScanAux (emojis : List (List Char)) :
    Nat → List Char → List Char → List (Bool × List Char)
  | 0, acc, rest => [(false, acc.reverse ++ rest)]
  | _ + 1, acc, [] => [(false, acc.reverse)]
  | fuel + 1, acc, c :: rest =>
    match selectMatch emojis (c :: rest) with
    | some n =>
      if n = 0 then splitScanAux emojis fuel (c :: acc) rest
      else
        (false, acc.reverse) :: (true, (c :: rest).take n) ::
          splitScanAux emojis fuel [] ((c :: rest).drop n)
    | none => splitScanAux emojis fuel (c :: acc) rest

/-- `EMOJI_REGEX.split(line)` (with the capture group), as tagged chunks. -/
def pySplit (emojis : List (List Char)) (line : List Char) : List (Bool × List Char) :=
  splitScanAux emojis line.length [] line

/-- Python `str.split(sep)` for a one-character separator (keeps empties). -/
def splitOnChar (sep : Char) : List Char → List Char → List (List Char)
  | acc, [] => [acc.reverse]
  | acc, c :: rest =>
    if c = sep then acc.reverse :: splitOnChar sep [] rest
    else splitOnChar sep (c :: acc) rest

/-- `chunk.split(':')[-1][:-1]` from `_parse_line`: the Discord emoji id. -/
def discordId (chunk : List Char) : List Char :=
  ((splitOnChar ':' [] chunk).getLast?.getD []).dropLast

/-- Classification of one split chunk, as in `_parse_line`: empty chunks are
skipped, unmatched chunks become text nodes, matched chunks longer than 18
characters become Discord emoji nodes (id extracted), the rest unicode
emoji nodes. -/
def nodeOfChunk (p : Bool × List Char) : Option Node :=
  if p.2 = [] then none
  else if p.1 = false then some ⟨NodeType.text, p.2⟩
  else if p.2.length > 18 then some ⟨NodeType.discord_emoji, discordId p.2⟩
  else some ⟨NodeType.emoji, p.2⟩

/-- `_parse_line` from `helpers.py`. -/
def parse_line (emojis : List (List Char)) (line : List Char) : List Node :=
  (pySplit emojis line).filterMap nodeOfChunk

/-- The line-break characters recognised by Python `str.splitlines`. -/
def isLineBreak (c : Char) : Bool :=
  c = '\n' || c = '\r' || c = '\x0b' || c = '\x0c' ||
  c = '\x1c' || c = '\x1d' || c = '\x1e' || c = '\x85' ||
  c = ' ' || c = ' '

/-- Python `str.splitlines`: `\r\n` counts as a single break, a trailing
break produces no extra empty line, the empty string yields no lines. -/
def pySplitlinesAux : List Char → List Char → List (List Char)
  | acc, [] => if acc = [] then [] else [acc.reverse]
  | acc, [c] => if isLineBreak c then [acc.reverse] else [(c :: acc).reverse]
  | acc, c :: c2 :: rest =>
    if c = '\r' ∧ c2 = '\n' then acc.reverse :: pySplitlinesAux [] rest
    else if isLineBreak c then acc.reverse :: pySplitlinesAux [] (c2 :: rest)
    else pySplitlinesAux (c :: acc) (c2 :: rest)

/-- Python `text.splitlines()`. -/
def pySplitlines (text : List Char) : List (List Char) :=
  pySplitlinesAux [] text

/-- `to_nodes` from `helpers.py`. -/
def to_nodes (emojis : List (List Char)) (text : List Char) : List (List Node) :=
  (pySplitlines text).map (parse_line emojis)

/-- Python `"\n".join(lines)`. -/
def pyJoinLines : List (List Char) → List Char
  | [] => []
  | [l] => l
  | l :: l' :: rest => l ++ '\n' :: pyJoinLines (l' :: rest)

/-- Concatenation of the chunks of a split (matched or not). -/
def joinChunks : List (Bool × List Char) → List Char
  | [] => []
  | p :: rest => p.2 ++ joinChunks rest

/-- A name admissible in the custom-emoji grammar (`[a-zA-Z0-9_]\x7b1,32\x7d`). -/
def validName (name : List Char) : Prop :=
  name ≠ [] ∧ name.length ≤ 32 ∧ ∀ c ∈ name, isNameChar c = true

/-- An id admissible in the custom-emoji grammar (`[0-9]\x7b17,22\x7d`). -/
def validId (digs : List Char) : Prop :=
  17 ≤ digs.length ∧ digs.length ≤ 22 ∧ ∀ c ∈ digs, c.isDigit = true

/-- The custom-emoji wire token `<` optional `a` `:` name `:` id `>`. -/
def wireToken (aflag : Bool) (name id : List Char) : List Char :=
  '<' :: (if aflag then ['a'] else []) ++ ':' :: (name ++ ':' :: (id ++ ['>']))

/-- Node re-wrapping relation for reconstruction: a text or unicode-emoji
node stands for its own content; a Discord node stands for some well-formed
wire token whose id is the node's content (the tokenizer keeps only the id,
so the name and animation flag are existential). -/
def rewrapRel (n : Node) (s : List Char) : Prop :=
  if n.type = NodeType.discord_emoji then
    ∃ aflag name, validName name ∧ validId n.content ∧ s = wireToken aflag name n.content
  else s = n.content

/-- Well-formed input for lossless reconstruction: the only line-break
character used is `\n`, and the text does not end in a line break
(`str.splitlines` drops a trailing break, and also splits on `\r`, `\v`,
`\f` and other separators that `"\n".join` cannot restore). -/
def wellFormed (text : List Char) : Prop :=
  (∀ c ∈ text, isLineBreak c = true → c = '\n') ∧ text.getLast? ≠ some '\n'

/-- The chunks the scanner may tag as matched: a known emoji alternative, or
a well-formed Discord wire token. -/
def MatchedOK (emojis : List (List Char)) (c : List Char) : Prop :=
  c ∈ emojis ∨
    ∃ aflag name digs, validName name ∧ validId digs ∧ c = wireToken aflag name digs

/-! ### Python numeric primitives -/

/-- Python 3 `round` on an exact rational: round half to even. -/
def pythonRound (q : ℚ) : ℤ :=
  let f := ⌊q⌋
  let r := q - (f : ℚ)
  if r < 1 / 2 then f
  else if 1 / 2 < r then f + 1
  else if f % 2 = 0 then f else f + 1

/-- Python `int(...)` on an exact rational: truncation towards zero. -/
def pyTrunc (q : ℚ) : ℤ :=
  if 0 ≤ q then ⌊q⌋ else -⌊-q⌋

/-- Space-run length substituted for one non-text node, from
`PilmojiDrawer.text` (core.py lines 371–377):
`width = round(emoji_scale_factor * font.size)`,
`size = round(width + ox + node_spacing * 2)` (an integer, so the outer
`round` is the identity), `space_to_had = round(size / space_text_lenght)`. -/
def spaceCount (scale fontSize : ℚ) (ox ns : ℤ) (spaceLen : ℚ) : ℤ :=
  let width := pythonRound (scale * fontSize)
  let size := pythonRound ((width + ox + ns * 2 : ℤ) : ℚ)
  pythonRound ((size : ℚ) / spaceLen)

/-- Modelled from the spec: the space-run length as the spec words phrase it
(`substitution_width = round(scale_factor × font_nominal_size + offset_x +
2×node_spacing)`, `count = round(substitution_width / space_width)`), with a
single rounding applied to the whole sum.  Kept only for comparison with the
source-derived `spaceCount`. -/
def specSpaceCount (scale fontSize : ℚ) (ox ns : ℤ) (spaceLen : ℚ) : ℤ :=
  pythonRound ((pythonRound (scale * fontSize + ox + 2 * ns) : ℚ) / spaceLen)

/-! ### Session state and effect monad (`pilmoji/source.py`, `pilmoji/core.py`)

`BytesIO` streams are modelled as indices into a table of buffers with an
explicit read position.  The network is a parameter `net : Url → Option Bytes`
(`none` models a non-success status, timeout or transport fault, on which
`HTTPBasedSource.request` raises `aiohttp.ClientError`).  Observable effects
are recorded in an event trace. -/

/-- Raw bytes of one emoji image. -/
abbrev Bytes := List Nat

/-- The two endpoint families used by the sources: the style CDN
(`EmojiCDNSource.get_emoji`) and the fixed Discord endpoint
(`DiscordEmojiSourceMixin.get_discord_emoji`). -/
inductive Url
  | cdn (emoji : List Char) (style : List Char)
  | discord (id : Nat)
deriving DecidableEq, Repr

/-- Observable events, in program order. -/
inductive Ev
  | netGet (u : Url)
  | dread (path : String)
  | dwrite (path : String)
  | mwrite
  | draw (x y : ℚ)
  | paste (lineIdx nodeIdx : Nat)
deriving DecidableEq, Repr

/-- `true` for every event that is not a canvas draw or paste. -/
def pureEv : Ev → Bool
  | Ev.draw _ _ => false
  | Ev.paste _ _ => false
  | _ => true

/-- The table of open `BytesIO` streams: buffer contents and read positions
(parallel lists indexed by handle). -/
structure Streams where
  bufs : List Bytes
  pos : List Nat
deriving DecidableEq, Repr

/-- Session state: `PilmojiMain` fields, the durable store of
`CachedHTTPBasedSource`, the stream table and the event trace. -/
structure St where
  closed : Bool
  cacheEnabled : Bool
  renderDiscord : Bool
  emojiCache : List (List Char × Nat)
  discordCache : List (Nat × Nat)
  streams : Streams
  disk : List (String × Bytes)
  trace : List Ev
deriving DecidableEq, Repr

/-- Errors raised by the embedded code: `ValueError` (validation,
double close) and `aiohttp.ClientError` (transport). -/
inductive Err
  | valueError
  | clientError
deriving DecidableEq, Repr

/-- State-and-error monad of the embedding: on an error the state reached so
far is kept (the trace shows the effects already performed). -/
def M (α : Type) : Type := St → Except Err α × St

/-- Bind of `M`: short-circuit on error, thread the state. -/
def M.bind {α β : Type} (x : M α) (f : α → M β) : M β := fun s =>
  match x s with
  | (Except.ok a, s') => f a s'
  | (Except.error e, s') => (Except.error e, s')

instance : Monad M where
  pure a := fun s => (Except.ok a, s)
  bind := M.bind

/-- Raise an exception. -/
def throwM {α : Type} (e : Err) : M α := fun s => (Except.error e, s)

/-- Read the current state. -/
def getS : M St := fun s => (Except.ok s, s)

/-- Replace the current state. -/
def setS (s' : St) : M Unit := fun _ => (Except.ok (), s')

/-- Append an event to the trace. -/
def emit (e : Ev) : M Unit := fun s =>
  (Except.ok (), { s with trace := s.trace ++ [e] })

/-- First association for a key (Python dict lookup; insertion conses). -/
def aget {α β : Type} [DecidableEq α] (k : α) : List (α × β) → Option β
  | [] => none
  | (k', v) :: rest => if k = k' then some v else aget k rest

/-- Python dict assignment `d[k] = v` (lookup takes the first hit). -/
def aput {α β : Type} [DecidableEq α] (k : α) (v : β) (l : List (α × β)) :
    List (α × β) :=
  (k, v) :: l

/-- `BytesIO(b)`: allocate a fresh stream at position 0, return its handle. -/
def newStream (b : Bytes) : M Nat := fun s =>
  (Except.ok s.streams.bufs.length,
   { s with streams := ⟨s.streams.bufs ++ [b], s.streams.pos ++ [0]⟩ })

/-- `stream.seek(0)`. -/
def seekStart (h : Nat) : M Unit := fun s =>
  (Except.ok (), { s with streams := { s.streams with pos := s.streams.pos.set h 0 } })

/-- `stream.read()`: the bytes from the current position to the end; the
position moves to the end. -/
def readAll (h : Nat) : M Bytes := fun s =>
  let buf := s.streams.bufs.getD h []
  let p := s.streams.pos.getD h 0
  (Except.ok (buf.drop p),
   { s with streams := { s.streams with pos := s.streams.pos.set h buf.length } })

/-- Durable-store read (`aiofiles.open(path, 'rb')` + `read`). -/
def diskReadM (path : String) : M Bytes := fun s =>
  ((M.bind (emit (Ev.dread path)) fun _ =>
    M.bind getS fun st => pure ((aget path st.disk).getD [])) s)

/-- Durable-store write (`aiofiles.open(path, 'wb')` + `write`). -/
def diskWriteM (path : String) (b : Bytes) : M Unit := fun s =>
  ((M.bind (emit (Ev.dwrite path)) fun _ =>
    M.bind getS fun st => setS { st with disk := aput path b st.disk }) s)

/-- `HTTPBasedSource.request` (source.py lines 97–121): GET the URL; on a
success status wrap the body in a fresh `BytesIO`, otherwise raise
`aiohttp.ClientError`. -/
def request (net : Url → Option Bytes) (u : Url) : M Nat := do
  emit (Ev.netGet u)
  match net u with
  | some b => newStream b
  | none => throwM Err.clientError

/-- `EmojiCDNSource.get_emoji`: build the style-specific CDN URL and request
it; the `except` clause logs and re-raises, so failures propagate. -/
def cdnGetEmoji (net : Url → Option Bytes) (style : List Char) (emoji : List Char) :
    M (Option Nat) := do
  let h ← request net (Url.cdn emoji style)
  pure (some h)

/-- `DiscordEmojiSourceMixin.get_discord_emoji`: request the fixed Discord
endpoint; failures propagate after logging. -/
def mixinGetDiscord (net : Url → Option Bytes) (id : Nat) : M (Option Nat) := do
  let h ← request net (Url.discord id)
  pure (some h)

/-- `CachedHTTPBasedSource._emoji_cache_path` (source.py lines 241–243):
`f'\x7bcls\x7d_\x7bsha256(emoji)\x7d.png'`, with the hash abstracted as a
parameter. -/
def emojiCachePath (hash : List Char → String) (clsName : String)
    (emoji : List Char) : String :=
  clsName ++ "_" ++ hash emoji ++ ".png"

/-- `CachedHTTPBasedSource._discord_cache_path` (source.py lines 245–246):
`f'discord_\x7bid\x7d.png'`. -/
def discordCachePath (id : Nat) : String :=
  "discord_" ++ toString id ++ ".png"

/-- Modelled from the spec: the unicode durable-cache filename as the spec
words it, `hash(style-identity + emoji-key)` (one hash over the
concatenation), with the same `.png` suffix.  Kept only for comparison with
the source-derived `emojiCachePath`. -/
def specPairEmojiPath (hash : List Char → String) (clsName : String)
    (emoji : List Char) : String :=
  hash (clsName.data ++ emoji) ++ ".png"

/-- `CachedHTTPBasedSource.get_emoji` (source.py lines 248–258): durable hit
returns a fresh stream over the stored bytes; otherwise delegate to the
wrapped source, and on bytes write them through to the durable store, rewind
and return. -/
def cachedGetEmoji (net : Url → Option Bytes) (hash : List Char → String)
    (clsName : String) (style : List Char) (emoji : List Char) : M (Option Nat) := do
  let path := emojiCachePath hash clsName emoji
  let s ← getS
  if (aget path s.disk).isSome then do
    let b ← diskReadM path
    let h ← newStream b
    pure (some h)
  else do
    let r ← cdnGetEmoji net style emoji
    match r with
    | some h => do
      let b ← readAll h
      diskWriteM path b
      seekStart h
      pure (some h)
    | none => pure none

/-- `CachedHTTPBasedSource.get_discord_emoji` (source.py lines 260–270). -/
def cachedGetDiscord (net : Url → Option Bytes) (id : Nat) : M (Option Nat) := do
  let path := discordCachePath id
  let s ← getS
  if (aget path s.disk).isSome then do
    let b ← diskReadM path
    let h ← newStream b
    pure (some h)
  else do
    let r ← mixinGetDiscord net id
    match r with
    | some h => do
      let b ← readAll h
      diskWriteM path b
      seekStart h
      pure (some h)
    | none => pure none

/-- `PilmojiMain._get_emoji` (core.py lines 121–133): memory hit returns the
cached stream itself after `seek(0)`; otherwise ask the (cache-wrapped)
source and on success optionally insert into the memory cache, rewind and
return. -/
def mainGetEmoji (net : Url → Option Bytes) (hash : List Char → String)
    (clsName : String) (style : List Char) (emoji : List Char) : M (Option Nat) := do
  let s ← getS
  match (if s.cacheEnabled then aget emoji s.emojiCache else none) with
  | some h => do
    seekStart h
    pure (some h)
  | none => do
    let r ← cachedGetEmoji net hash clsName style emoji
    match r with
    | some h => do
      let s' ← getS
      if s'.cacheEnabled then do
        emit Ev.mwrite
        let s'' ← getS
        setS { s'' with emojiCache := aput emoji h s''.emojiCache }
      else pure ()
      seekStart h
      pure (some h)
    | none => pure none

/-- Python `int(...)` on a digit string (used by `_get_discord_emoji`). -/
def pyIntNat (l : List Char) : Nat :=
  l.foldl (fun a c => a * 10 + (c.toNat - '0'.toNat)) 0

/-- `PilmojiMain._get_discord_emoji` (core.py lines 135–149). -/
def mainGetDiscord (net : Url → Option Bytes) (content : List Char) :
    M (Option Nat) := do
  let id := pyIntNat content
  let s ← getS
  match (if s.cacheEnabled then aget id s.discordCache else none) with
  | some h => do
    seekStart h
    pure (some h)
  | none => do
    let r ← cachedGetDiscord net id
    match r with
    | some h => do
      let s' ← getS
      if s'.cacheEnabled then do
        emit Ev.mwrite
        let s'' ← getS
        setS { s'' with discordCache := aput id h s''.discordCache }
      else pure ()
      seekStart h
      pure (some h)
    | none => pure none

/-- `PilmojiMain.close` (core.py lines 88–119): a second close raises
`ValueError`; when caching is enabled the per-session dictionaries are
emptied (their streams closed); the durable store is not touched. -/
def close : M Unit := do
  let s ← getS
  if s.closed then throwM Err.valueError
  else if s.cacheEnabled then
    setS { s with emojiCache := [], discordCache := [], closed := true }
  else
    setS { s with closed := true }

/-- `PilmojiMain.__init__`: a fresh session (empty caches, not closed). -/
def initState (cacheEnabled renderDiscord : Bool) (disk : List (String × Bytes)) : St :=
  { closed := false, cacheEnabled := cacheEnabled, renderDiscord := renderDiscord,
    emojiCache := [], discordCache := [], streams := ⟨[], []⟩,
    disk := disk, trace := [] }

/-! ### `PilmojiDrawer.text` (core.py lines 228–495)

Backend (PIL) calls are parameters: `textLen` is `draw.textlength` under the
call's direction/features/language, `fontLen` is `font.getlength`,
`lineProbe` is `draw.textbbox((0, 0), "A", font, stroke_width)[3]`,
`fontSize` is `font.size`.  The per-line `asyncio.gather` is linearised in
node order; the paste-coordinate fixup through `font.getmask2` (backend mask
offsets) is outside the modelled scope, so a paste event records the line and
node index only. -/

/-- Backend and source configuration of one draw call. -/
structure DrawCfg where
  net : Url → Option Bytes
  hash : List Char → String
  clsName : String
  style : List Char
  emojis : List (List Char)
  fontSize : ℚ
  textLen : List Char → ℚ
  fontLen : List Char → ℚ
  lineProbe : ℚ

/-- The keyword arguments of `PilmojiDrawer.text` that the model uses. -/
structure TextParams where
  xy : ℚ × ℚ
  anchor : Option (List Char)
  spacing : ℚ
  nodeSpacing : ℤ
  align : String
  direction : Option String
  strokeWidth : ℚ
  scaleFactor : ℚ
  posOffset : ℤ × ℤ

/-- The fetch of one node inside `process_line` (core.py lines 346–358):
unicode emoji always fetch, Discord emoji fetch when rendering them is
enabled, text nodes never fetch. -/
def fetchNode (cfg : DrawCfg) (node : Node) : M (Node × Option Nat) := do
  let s ← getS
  match node.type with
  | NodeType.emoji => do
    let r ← mainGetEmoji cfg.net cfg.hash cfg.clsName cfg.style node.content
    pure (node, r)
  | NodeType.discord_emoji =>
    if s.renderDiscord then do
      let r ← mainGetDiscord cfg.net node.content
      pure (node, r)
    else pure (node, none)
  | NodeType.text => pure (node, none)

/-- The `asyncio.gather` fan-out over one line, linearised in node order. -/
def fetchLine (cfg : DrawCfg) : List Node → M (List (Node × Option Nat))
  | [] => pure []
  | n :: rest => do
    let r ← fetchNode cfg n
    let rs ← fetchLine cfg rest
    pure (r :: rs)

/-- Building `text_line` (core.py lines 365–377): text nodes and nodes
without a stream contribute their content; fetched emoji nodes contribute a
run of spaces of length `spaceCount` (`range` of a negative count is empty,
hence `Int.toNat`). -/
def buildLine (p : TextParams) (fontSize spaceLen : ℚ) :
    List (Node × Option Nat) → List Char
  | [] => []
  | (n, st) :: rest =>
    (if n.type = NodeType.text ∨ st = none then n.content
     else List.replicate
       (spaceCount p.scaleFactor fontSize p.posOffset.1 p.nodeSpacing spaceLen).toNat ' ')
    ++ buildLine p fontSize spaceLen rest

/-- The first loop of `PilmojiDrawer.text` (core.py lines 342–385): per line,
fetch all nodes, then build the substituted draw string. -/
def fetchPhase (cfg : DrawCfg) (p : TextParams) :
    List (List Node) → M (List (List Char × List (Node × Option Nat)))
  | [] => pure []
  | line :: rest => do
    let rs ← fetchLine cfg line
    let tl := buildLine p cfg.fontSize (cfg.textLen [' ']) rs
    let rest' ← fetchPhase cfg p rest
    pure ((tl, rs) :: rest')

/-- Per-line horizontal offset (core.py lines 396–416): start from the
original x, apply the anchor-column adjustment, then the align adjustment;
an unknown `align` raises `ValueError` at this point. -/
def lineDrawX (x0 : ℚ) (a0 : Char) (align : String) (diff : ℚ) : Except Err ℚ :=
  let x := x0
  let x := if a0 = 'm' then x - diff / 2 else if a0 = 'r' then x - diff else x
  if align = "left" then Except.ok x
  else if align = "center" then Except.ok (x + diff / 2)
  else if align = "right" then Except.ok (x + diff)
  else Except.error Err.valueError

/-- The per-node cursor loop after a line's draw call (core.py lines
472–495): nodes without a stream advance the cursor by the measured width of
their content; fetched nodes paste and advance by the scaled emoji width. -/
def pasteLoop (cfg : DrawCfg) (p : TextParams) (lineIdx : Nat) :
    Nat → ℚ → List (Node × Option Nat) → M Unit
  | _, _, [] => pure ()
  | j, x, (n, st) :: rest =>
    match st with
    | none => do
      let w := pyTrunc (cfg.fontLen n.content)
      pasteLoop cfg p lineIdx (j + 1) (x + p.nodeSpacing + w) rest
    | some _ => do
      emit (Ev.paste lineIdx j)
      let w := pythonRound (p.scaleFactor * cfg.fontSize)
      pasteLoop cfg p lineIdx (j + 1) (x + p.nodeSpacing + w) rest

/-- The second loop of `PilmojiDrawer.text` (core.py lines 394–495): per
line, compute the horizontal offset (validating `align`), issue the single
native draw call when the substituted line is non-empty, then run the paste
loop, and advance y by the line spacing. -/
def drawPhase (cfg : DrawCfg) (p : TextParams) (anchor : List Char)
    (maxWidth x0 : ℚ) (lineSpacing : ℚ) :
    Nat → ℚ → List (List Char × List (Node × Option Nat)) → M Unit
  | _, _, [] => pure ()
  | i, y, (tl, rs) :: rest => do
    let diff := maxWidth - cfg.textLen tl
    match lineDrawX x0 (anchor.getD 0 ' ') p.align diff with
    | Except.error e => throwM e
    | Except.ok x => do
      if tl.length > 0 then emit (Ev.draw x y) else pure ()
      pasteLoop cfg p i 0 x rs
      drawPhase cfg p anchor maxWidth x0 lineSpacing (i + 1) (y + lineSpacing) rest

/-- `PilmojiDrawer.text` (core.py lines 228–495): validate anchor and
direction, tokenize, fetch and substitute per line, shift y by the
anchor row, then draw and paste per line. -/
def drawText (cfg : DrawCfg) (p : TextParams) (text : List Char) : M Unit := do
  let anchor ← match p.anchor with
    | none => pure ['l', 'a']
    | some a =>
      if a.length ≠ 2 then throwM Err.valueError
      else if (a.getD 1 ' ' = 't' ∨ a.getD 1 ' ' = 'b') ∧ '\n' ∈ text then
        throwM Err.valueError
      else pure a
  if p.direction = some "ttb" ∧ '\n' ∈ text then throwM Err.valueError
  else do
    let nodes := to_nodes cfg.emojis text
    let lineSpacing := cfg.lineProbe + p.strokeWidth + p.spacing
    let linesData ← fetchPhase cfg p nodes
    let widths := linesData.map (fun d => cfg.textLen d.1)
    let maxWidth := widths.foldl max 0
    let y0 :=
      if anchor.getD 1 ' ' = 'm' then
        p.xy.2 - ((nodes.length : ℚ) - 1) * lineSpacing / 2
      else if anchor.getD 1 ' ' = 'd' then
        p.xy.2 - ((nodes.length : ℚ) - 1) * lineSpacing
      else p.xy.2
    drawPhase cfg p anchor maxWidth p.xy.1 lineSpacing 0 y0 linesData

/-- `getsize` from `helpers.py` (lines 143–168): accumulate per line the
widths of the nodes (emoji nodes use `int(scale * font.size)`, text nodes
the measured width), track the maximum, and advance y by
`spacing + font.size` per line; the result height is `y - spacing`. -/
def getsize (emojis : List (List Char)) (fontSize : ℤ)
    (textWidth : List Char → ℚ) (scale : ℚ) (spacing : ℤ)
    (text : List Char) : ℤ × ℤ :=
  let nodes := to_nodes emojis text
  let xy := nodes.foldl
    (fun (acc : ℤ × ℤ) line =>
      let thisX := line.foldl
        (fun tx node =>
          tx + (if node.type ≠ NodeType.text then pyTrunc (scale * (fontSize : ℚ))
                else pyTrunc (textWidth node.content))) 0
      (max acc.1 thisX, acc.2 + spacing + fontSize)) (0, 0)
  (xy.1, xy.2 - spacing)

instance {ε α : Type} [DecidableEq ε] [DecidableEq α] : DecidableEq (Except ε α) :=
  fun x y =>
  match x, y with
  | Except.ok a, Except.ok b =>
    if h : a = b then isTrue (by rw [h]) else isFalse (by simp [h])
  | Except.ok _, Except.error _ => isFalse (by simp)
  | Except.error _, Except.ok _ => isFalse (by simp)
  | Except.error e, Except.error f =>
    if h : e = f then isTrue (by rw [h]) else isFalse (by simp [h])

/-- A node whose fetch reaches the source pipeline: a unicode emoji, or a
Discord emoji while rendering them is enabled. -/
def Trig (rd : Bool) (n : Node) : Prop :=
  n.type = NodeType.emoji ∨ (rd = true ∧ n.type = NodeType.discord_emoji)

instance (rd : Bool) (n : Node) : Decidable (Trig rd n) := by
  unfold Trig
  infer_instance

/-- Every event of the trace is a non-canvas event. -/
def noDraws (s : St) : Prop := ∀ ev ∈ s.trace, pureEv ev = true

/-! ### Concrete draw scenario used by the C1 and C3 counterexamples

One unicode emoji `e` in a one-line text, a one-pixel backend, a network
returning the one-byte body `[7]` (or failing), caching enabled and an empty
durable store. -/

/-- The emoji node of the scenario. -/
def cexNode : Node := ⟨NodeType.emoji, ['e']⟩

/-- A backend/source configuration with a working network. -/
def cexCfg : DrawCfg :=
  { net := fun _ => some [7], hash := fun _ => "h", clsName := "T", style := ['t'],
    emojis := [['e']], fontSize := 1, textLen := fun _ => 1, fontLen := fun _ => 1,
    lineProbe := 1 }

/-- The same configuration with a network that always fails. -/
def cexFailCfg : DrawCfg :=
  { cexCfg with net := fun _ => none }

/-- Default draw parameters (valid anchor, align, direction). -/
def cexOkParams : TextParams :=
  { xy := (0, 0), anchor := none, spacing := 4, nodeSpacing := 0, align := "left",
    direction := none, strokeWidth := 0, scaleFactor := 1, posOffset := (0, 0) }

/-- The same parameters with an invalid `align`. -/
def cexBadParams : TextParams :=
  { cexOkParams with align := "bad" }

/-- A fresh session over an empty durable store. -/
def cexStart : St := initState true true []

/-- The session state after the scenario's one successful emoji fetch:
one network request, one durable write, one memory-cache write. -/
def cexMid : St :=
  { closed := false, cacheEnabled := true, renderDiscord := true,
    emojiCache := [(['e'], 0)], discordCache := [],
    streams := ⟨[[7]], [0]⟩, disk := [("T_h.png", [7])],
    trace := [Ev.netGet (Url.cdn ['e'] ['t']), Ev.dwrite "T_h.png", Ev.mwrite] }

/-- A session state whose memory cache holds the key `e` as stream 0 with
three buffered bytes, used by the C7 scenario. -/
def cexHitState : St :=
  { cexStart with emojiCache := [(['e'], 0)], streams := ⟨[[1, 2, 3]], [0]⟩ }

/-- Two successive callers of `_get_emoji` for the same cached key, the
first reading its stream to the end before the second asks: returns both
handles, the stream position after the first caller's read, and the same
stream's position after the second caller obtained it. -/
def c7prog (cfg : DrawCfg) : M (Option Nat × Option Nat × Nat × Nat) := do
  let h1 ← mainGetEmoji cfg.net cfg.hash cfg.clsName cfg.style ['e']
  let mid ← match h1 with
    | some hh => do
      let _ ← readAll hh
      getS
    | none => getS
  let h2 ← mainGetEmoji cfg.net cfg.hash cfg.clsName cfg.style ['e']
  let s ← getS
  pure (h1, h2, mid.streams.pos.getD 0 99, s.streams.pos.getD 0 99)

/-! ### Supporting lemmas -/

/-- Python `round` is the identity on integers. -/
theorem pythonRound_intCast (n : ℤ) : pythonRound (n : ℚ) = n := by
  simp [pythonRound]

/-- Bind in `M` is `M.bind`. -/
theorem mbind_eq {α β : Type} (x : M α) (f : α → M β) :
    (x >>= f) = M.bind x f := rfl

/-- Running a bind whose first component succeeds. -/
theorem mbind_ok {α β : Type} {x : M α} {f : α → M β} {s s' : St} {a : α}
    (h : x s = (Except.ok a, s')) : (x >>= f) s = f a s' := by
  show M.bind x f s = _
  rw [M.bind, h]

/-- Running a bind whose first component fails. -/
theorem mbind_err {α β : Type} {x : M α} {f : α → M β} {s s' : St} {e : Err}
    (h : x s = (Except.error e, s')) : (x >>= f) s = (Except.error e, s') := by
  show M.bind x f s = _
  rw [M.bind, h]

@[simp] theorem pure_apply {α : Type} (a : α) (s : St) :
    (pure a : M α) s = (Except.ok a, s) := rfl

@[simp] theorem pure_bind_apply {α β : Type} (a : α) (f : α → M β) (s : St) :
    ((pure a : M α) >>= f) s = f a s := rfl

@[simp] theorem throwM_apply {α : Type} (e : Err) (s : St) :
    (throwM e : M α) s = (Except.error e, s) := rfl

@[simp] theorem getS_apply (s : St) : getS s = (Except.ok s, s) := rfl

@[simp] theorem setS_apply (s' s : St) : setS s' s = (Except.ok (), s') := rfl

@[simp] theorem emit_apply (e : Ev) (s : St) :
    emit e s = (Except.ok (), { s with trace := s.trace ++ [e] }) := rfl

@[simp] theorem getS_bind_apply {β : Type} (f : St → M β) (s : St) :
    ((getS >>= f) : M β) s = f s s := rfl

@[simp] theorem emit_bind_apply {β : Type} (e : Ev) (f : Unit → M β) (s : St) :
    ((emit e >>= f) : M β) s = f () { s with trace := s.trace ++ [e] } := rfl

@[simp] theorem setS_bind_apply {β : Type} (s' : St) (f : Unit → M β) (s : St) :
    ((setS s' >>= f) : M β) s = f () s' := rfl

@[simp] theorem throwM_bind_apply {α β : Type} (e : Err) (f : α → M β) (s : St) :
    ((throwM e >>= f) : M β) s = (Except.error e, s) := rfl

@[simp] theorem seekStart_bind_apply {β : Type} (h : Nat) (f : Unit → M β) (s : St) :
    ((seekStart h >>= f) : M β) s =
      f () { s with streams := { s.streams with pos := s.streams.pos.set h 0 } } := rfl

@[simp] theorem newStream_bind_apply {β : Type} (b : Bytes) (f : Nat → M β) (s : St) :
    ((newStream b >>= f) : M β) s =
      f s.streams.bufs.length
        { s with streams := ⟨s.streams.bufs ++ [b], s.streams.pos ++ [0]⟩ } := rfl

@[simp] theorem readAll_bind_apply {β : Type} (h : Nat) (f : Bytes → M β) (s : St) :
    ((readAll h >>= f) : M β) s =
      f ((s.streams.bufs.getD h []).drop (s.streams.pos.getD h 0))
        { s with streams :=
          { s.streams with pos := s.streams.pos.set h (s.streams.bufs.getD h []).length } } := rfl

/-! Error propagation of the fetch pipeline under a failing network. -/

/-- `HTTPBasedSource.request` raises `ClientError` when the network fails,
leaving only the request event behind. -/
theorem request_err {net : Url → Option Bytes} {u : Url} (hnet : net u = none) (s : St) :
    request net u s =
      (Except.error Err.clientError, { s with trace := s.trace ++ [Ev.netGet u] }) := by
  show ((emit (Ev.netGet u) >>= fun _ => match net u with
    | some b => newStream b
    | none => throwM Err.clientError) : M Nat) s = _
  rw [emit_bind_apply, hnet]
  rfl

/-- `EmojiCDNSource.get_emoji` re-raises the transport error. -/
theorem cdnGetEmoji_err {net : Url → Option Bytes} {style emoji : List Char}
    (hnet : net (Url.cdn emoji style) = none) (s : St) :
    cdnGetEmoji net style emoji s =
      (Except.error Err.clientError,
        { s with trace := s.trace ++ [Ev.netGet (Url.cdn emoji style)] }) := by
  show ((request net (Url.cdn emoji style) >>= fun h => pure (some h)) : M (Option Nat)) s = _
  rw [mbind_err (request_err hnet s)]

/-- `DiscordEmojiSourceMixin.get_discord_emoji` re-raises the transport
error. -/
theorem mixinGetDiscord_err {net : Url → Option Bytes} {id : Nat}
    (hnet : net (Url.discord id) = none) (s : St) :
    mixinGetDiscord net id s =
      (Except.error Err.clientError,
        { s with trace := s.trace ++ [Ev.netGet (Url.discord id)] }) := by
  show ((request net (Url.discord id) >>= fun h => pure (some h)) : M (Option Nat)) s = _
  rw [mbind_err (request_err hnet s)]

/-- `CachedHTTPBasedSource.get_emoji` propagates the transport error when the
durable store misses. -/
theorem cachedGetEmoji_err {net : Url → Option Bytes} {hash : List Char → String}
    {clsName : String} {style emoji : List Char} {s : St}
    (hnet : net (Url.cdn emoji style) = none) (hk : s.disk = []) :
    cachedGetEmoji net hash clsName style emoji s =
      (Except.error Err.clientError,
        { s with trace := s.trace ++ [Ev.netGet (Url.cdn emoji style)] }) := by
  show ((getS >>= fun s0 =>
    if (aget (emojiCachePath hash clsName emoji) s0.disk).isSome then
      (do
        let b ← diskReadM (emojiCachePath hash clsName emoji)
        let h ← newStream b
        pure (some h))
    else
      (do
        let r ← cdnGetEmoji net style emoji
        match r with
        | some h => do
          let b ← readAll h
          diskWriteM (emojiCachePath hash clsName emoji) b
          seekStart h
          pure (some h)
        | none => pure none)) : M (Option Nat)) s = _
  rw [getS_bind_apply, if_neg (by simp [hk, aget])]
  rw [mbind_err (cdnGetEmoji_err hnet s)]

/-- `CachedHTTPBasedSource.get_discord_emoji` propagates the transport error
when the durable store misses. -/
theorem cachedGetDiscord_err {net : Url → Option Bytes} {id : Nat} {s : St}
    (hnet : net (Url.discord id) = none) (hk : s.disk = []) :
    cachedGetDiscord net id s =
      (Except.error Err.clientError,
        { s with trace := s.trace ++ [Ev.netGet (Url.discord id)] }) := by
  show ((getS >>= fun s0 =>
    if (aget (discordCachePath id) s0.disk).isSome then
      (do
        let b ← diskReadM (discordCachePath id)
        let h ← newStream b
        pure (some h))
    else
      (do
        let r ← mixinGetDiscord net id
        match r with
        | some h => do
          let b ← readAll h
          diskWriteM (discordCachePath id) b
          seekStart h
          pure (some h)
        | none => pure none)) : M (Option Nat)) s = _
  rw [getS_bind_apply, if_neg (by simp [hk, aget])]
  rw [mbind_err (mixinGetDiscord_err hnet s)]

/-- `PilmojiMain._get_emoji` propagates the transport error when both the
memory cache and the durable store miss. -/
theorem mainGetEmoji_err {net : Url → Option Bytes} {hash : List Char → String}
    {clsName : String} {style emoji : List Char} {s : St}
    (hnet : net (Url.cdn emoji style) = none)
    (hm : s.emojiCache = []) (hk : s.disk = []) :
    mainGetEmoji net hash clsName style emoji s =
      (Except.error Err.clientError,
        { s with trace := s.trace ++ [Ev.netGet (Url.cdn emoji style)] }) := by
  show ((getS >>= fun s0 =>
    match (if s0.cacheEnabled then aget emoji s0.emojiCache else none) with
    | some h => do
      seekStart h
      pure (some h)
    | none => do
      let r ← cachedGetEmoji net hash clsName style emoji
      match r with
      | some h => do
        let s' ← getS
        if s'.cacheEnabled then do
          emit Ev.mwrite
          let s'' ← getS
          setS { s'' with emojiCache := aput emoji h s''.emojiCache }
        else pure ()
        seekStart h
        pure (some h)
      | none => pure none) : M (Option Nat)) s = _
  rw [getS_bind_apply]
  rw [show (if s.cacheEnabled = true then aget emoji s.emojiCache else none) = none by
    rw [hm]; simp [aget]]
  change (cachedGetEmoji net hash clsName style emoji >>= _) s = _
  rw [mbind_err (cachedGetEmoji_err hnet hk)]

/-- `PilmojiMain._get_discord_emoji` propagates the transport error when
both the memory cache and the durable store miss. -/
theorem mainGetDiscord_err {net : Url → Option Bytes} {content : List Char} {s : St}
    (hnet : net (Url.discord (pyIntNat content)) = none)
    (hm : s.discordCache = []) (hk : s.disk = []) :
    mainGetDiscord net content s =
      (Except.error Err.clientError,
        { s with trace := s.trace ++ [Ev.netGet (Url.discord (pyIntNat content))] }) := by
  show ((getS >>= fun s0 =>
    match (if s0.cacheEnabled then aget (pyIntNat content) s0.discordCache else none) with
    | some h => do
      seekStart h
      pure (some h)
    | none => do
      let r ← cachedGetDiscord net (pyIntNat content)
      match r with
      | some h => do
        let s' ← getS
        if s'.cacheEnabled then do
          emit Ev.mwrite
          let s'' ← getS
          setS { s'' with discordCache := aput (pyIntNat content) h s''.discordCache }
        else pure ()
        seekStart h
        pure (some h)
      | none => pure none) : M (Option Nat)) s = _
  rw [getS_bind_apply]
  rw [show (if s.cacheEnabled = true then aget (pyIntNat content) s.discordCache else none)
      = none by rw [hm]; simp [aget]]
  change (cachedGetDiscord net (pyIntNat content) >>= _) s = _
  rw [mbind_err (cachedGetDiscord_err hnet hk)]

/-- A node that does not fetch (text, or Discord with rendering disabled)
leaves the state untouched and carries no stream. -/
theorem fetchNode_skip {cfg : DrawCfg} {n : Node} {s : St}
    (h : ¬ Trig s.renderDiscord n) :
    fetchNode cfg n s = (Except.ok (n, none), s) := by
  show ((getS >>= fun s0 =>
    match n.type with
    | NodeType.emoji => do
      let r ← mainGetEmoji cfg.net cfg.hash cfg.clsName cfg.style n.content
      pure (n, r)
    | NodeType.discord_emoji =>
      if s0.renderDiscord then do
        let r ← mainGetDiscord cfg.net n.content
        pure (n, r)
      else pure (n, none)
    | NodeType.text => pure (n, none)) : M (Node × Option Nat)) s = _
  rw [getS_bind_apply]
  cases ht : n.type with
  | text => rfl
  | emoji => exact absurd (Or.inl ht) h
  | discord_emoji =>
    have hrd : s.renderDiscord = false := by
      cases hb : s.renderDiscord with
      | false => rfl
      | true => exact absurd (Or.inr ⟨hb, ht⟩) h
    rw [if_neg (by simp [hrd])]
    rfl

/-- A fetching node raises `ClientError` when the network always fails and
all cache tiers are empty. -/
theorem fetchNode_trig_err {cfg : DrawCfg} {n : Node} {s : St}
    (hnet : ∀ u, cfg.net u = none) (hm : s.emojiCache = [])
    (hdc : s.discordCache = []) (hk : s.disk = [])
    (h : Trig s.renderDiscord n) :
    ∃ s', fetchNode cfg n s = (Except.error Err.clientError, s') := by
  show ∃ s', ((getS >>= fun s0 =>
    match n.type with
    | NodeType.emoji => do
      let r ← mainGetEmoji cfg.net cfg.hash cfg.clsName cfg.style n.content
      pure (n, r)
    | NodeType.discord_emoji =>
      if s0.renderDiscord then do
        let r ← mainGetDiscord cfg.net n.content
        pure (n, r)
      else pure (n, none)
    | NodeType.text => pure (n, none)) : M (Node × Option Nat)) s = _
  rw [getS_bind_apply]
  rcases h with ht | ⟨hrd, ht⟩
  · rw [ht]
    refine ⟨{ s with trace := s.trace ++ [Ev.netGet (Url.cdn n.content cfg.style)] }, ?_⟩
    change (mainGetEmoji cfg.net cfg.hash cfg.clsName cfg.style n.content >>= _) s = _
    rw [mbind_err (@mainGetEmoji_err cfg.net cfg.hash cfg.clsName cfg.style
      n.content s (hnet _) hm hk)]
  · rw [ht, if_pos (by simp [hrd])]
    refine ⟨{ s with trace := s.trace ++ [Ev.netGet (Url.discord (pyIntNat n.content))] }, ?_⟩
    change (mainGetDiscord cfg.net n.content >>= _) s = _
    rw [mbind_err (@mainGetDiscord_err cfg.net n.content s (hnet _) hdc hk)]

/-- A line without fetching nodes leaves the state untouched. -/
theorem fetchLine_ok {cfg : DrawCfg} :
    ∀ (line : List Node) (s : St), (∀ n ∈ line, ¬ Trig s.renderDiscord n) →
      fetchLine cfg line s = (Except.ok (line.map fun n => (n, none)), s) := by
  intro line
  induction line with
  | nil => intro s _; rfl
  | cons n rest ih =>
    intro s hline
    show (fetchLine cfg (n :: rest)) s = _
    simp only [fetchLine]
    rw [mbind_ok (fetchNode_skip (hline n (by simp)))]
    rw [mbind_ok (ih s (fun n' hn' => hline n' (by simp [hn'])))]
    rfl

/-- A line containing a fetching node raises `ClientError` under a failing
network and empty cache tiers. -/
theorem fetchLine_err {cfg : DrawCfg} (hnet : ∀ u, cfg.net u = none) :
    ∀ (line : List Node) (s : St), s.emojiCache = [] → s.discordCache = [] →
      s.disk = [] → (∃ n ∈ line, Trig s.renderDiscord n) →
      ∃ s', fetchLine cfg line s = (Except.error Err.clientError, s') := by
  intro line
  induction line with
  | nil => intro s _ _ _ h; simp at h
  | cons n rest ih =>
    intro s hm hdc hk h
    show ∃ s', (fetchLine cfg (n :: rest)) s = _
    simp only [fetchLine]
    by_cases hn : Trig s.renderDiscord n
    · obtain ⟨s', herr⟩ := fetchNode_trig_err hnet hm hdc hk hn
      exact ⟨s', by rw [mbind_err herr]⟩
    · rw [mbind_ok (fetchNode_skip hn)]
      have hrest : ∃ n' ∈ rest, Trig s.renderDiscord n' := by
        rcases h with ⟨n0, hmem, htrig⟩
        rcases List.mem_cons.mp hmem with rfl | hmem'
        · exact absurd htrig hn
        · exact ⟨n0, hmem', htrig⟩
      obtain ⟨s', herr⟩ := ih s hm hdc hk hrest
      exact ⟨s', by rw [mbind_err herr]⟩

/-- The fetch phase raises `ClientError` as soon as some line contains a
fetching node, under a failing network and empty cache tiers. -/
theorem fetchPhase_err {cfg : DrawCfg} {p : TextParams}
    (hnet : ∀ u, cfg.net u = none) :
    ∀ (lines : List (List Node)) (s : St), s.emojiCache = [] →
      s.discordCache = [] → s.disk = [] →
      (∃ l ∈ lines, ∃ n ∈ l, Trig s.renderDiscord n) →
      ∃ s', fetchPhase cfg p lines s = (Except.error Err.clientError, s') := by
  intro lines
  induction lines with
  | nil => intro s _ _ _ h; simp at h
  | cons l ls ih =>
    intro s hm hdc hk h
    show ∃ s', (fetchPhase cfg p (l :: ls)) s = _
    simp only [fetchPhase]
    by_cases hl : ∃ n ∈ l, Trig s.renderDiscord n
    · obtain ⟨s', herr⟩ := fetchLine_err hnet l s hm hdc hk hl
      exact ⟨s', by rw [mbind_err herr]⟩
    · rw [mbind_ok (fetchLine_ok l s (fun n hn htr => hl ⟨n, hn, htr⟩))]
      have hrest : ∃ l' ∈ ls, ∃ n ∈ l', Trig s.renderDiscord n := by
        rcases h with ⟨l0, hmem, hn0⟩
        rcases List.mem_cons.mp hmem with rfl | hmem'
        · exact absurd hn0 hl
        · exact ⟨l0, hmem', hn0⟩
      obtain ⟨s', herr⟩ := ih s hm hdc hk hrest
      exact ⟨s', by rw [mbind_err herr]⟩

/-! Trace purity of the fetch pipeline: every event it appends is a network,
disk or memory-cache event, never a canvas draw or paste. -/

theorem noDraws_snoc {l : List Ev} {e : Ev} (hs : ∀ ev ∈ l, pureEv ev = true)
    (he : pureEv e = true) : ∀ ev ∈ l ++ [e], pureEv ev = true := by
  intro ev hev
  rcases List.mem_append.mp hev with h | h
  · exact hs ev h
  · rw [List.mem_singleton] at h
    subst h
    exact he

theorem noDraws_bind {α β : Type} {x : M α} {f : α → M β}
    (hx : ∀ s, noDraws s → noDraws ((x s).2))
    (hf : ∀ a s, noDraws s → noDraws ((f a s).2)) :
    ∀ s, noDraws s → noDraws (((x >>= f) s).2) := by
  intro s hs
  have h1 : noDraws ((x s).2) := hx s hs
  show noDraws ((M.bind x f s).2)
  unfold M.bind
  rcases hx0 : x s with ⟨r, s1⟩
  rw [hx0] at h1
  cases r with
  | error e => exact h1
  | ok a => exact hf a s1 h1

@[simp] theorem diskReadM_bind_apply {β : Type} (path : String) (f : Bytes → M β) (s : St) :
    ((diskReadM path >>= f) : M β) s =
      f ((aget path s.disk).getD []) { s with trace := s.trace ++ [Ev.dread path] } := rfl

@[simp] theorem diskWriteM_bind_apply {β : Type} (path : String) (b : Bytes)
    (f : Unit → M β) (s : St) :
    ((diskWriteM path b >>= f) : M β) s =
      f () { s with disk := aput path b s.disk,
                    trace := s.trace ++ [Ev.dwrite path] } := rfl

theorem request_noDraws (net : Url → Option Bytes) (u : Url) :
    ∀ s, noDraws s → noDraws ((request net u s).2) := by
  intro s hs
  show noDraws (((emit (Ev.netGet u) >>= fun _ => match net u with
    | some b => newStream b
    | none => throwM Err.clientError) : M Nat) s).2
  rw [emit_bind_apply]
  rcases net u with _ | b
  · exact noDraws_snoc hs rfl
  · exact noDraws_snoc hs rfl

theorem cdnGetEmoji_noDraws (net : Url → Option Bytes) (style emoji : List Char) :
    ∀ s, noDraws s → noDraws ((cdnGetEmoji net style emoji s).2) := by
  intro s hs
  show noDraws (((request net (Url.cdn emoji style) >>= fun h => pure (some h)) : M (Option Nat)) s).2
  exact noDraws_bind (request_noDraws net _) (fun a s hs => hs) s hs

theorem mixinGetDiscord_noDraws (net : Url → Option Bytes) (id : Nat) :
    ∀ s, noDraws s → noDraws ((mixinGetDiscord net id s).2) := by
  intro s hs
  show noDraws (((request net (Url.discord id) >>= fun h => pure (some h)) : M (Option Nat)) s).2
  exact noDraws_bind (request_noDraws net _) (fun a s hs => hs) s hs

theorem cachedGetEmoji_noDraws (net : Url → Option Bytes) (hash : List Char → String)
    (clsName : String) (style emoji : List Char) :
    ∀ s, noDraws s → noDraws ((cachedGetEmoji net hash clsName style emoji s).2) := by
  intro s hs
  show noDraws (((getS >>= fun s0 =>
    if (aget (emojiCachePath hash clsName emoji) s0.disk).isSome then
      (do
        let b ← diskReadM (emojiCachePath hash clsName emoji)
        let h ← newStream b
        pure (some h))
    else
      (do
        let r ← cdnGetEmoji net style emoji
        match r with
        | some h => do
          let b ← readAll h
          diskWriteM (emojiCachePath hash clsName emoji) b
          seekStart h
          pure (some h)
        | none => pure none)) : M (Option Nat)) s).2
  rw [getS_bind_apply]
  by_cases hd : (aget (emojiCachePath hash clsName emoji) s.disk).isSome
  · rw [if_pos hd]
    simp only [diskReadM_bind_apply, newStream_bind_apply, pure_apply]
    exact noDraws_snoc hs rfl
  · rw [if_neg hd]
    refine noDraws_bind (cdnGetEmoji_noDraws net style emoji) (fun r s1 hs1 => ?_) s hs
    rcases r with _ | h
    · exact hs1
    · simp only [readAll_bind_apply, diskWriteM_bind_apply, seekStart_bind_apply, pure_apply]
      exact noDraws_snoc hs1 rfl

theorem cachedGetDiscord_noDraws (net : Url → Option Bytes) (id : Nat) :
    ∀ s, noDraws s → noDraws ((cachedGetDiscord net id s).2) := by
  intro s hs
  show noDraws (((getS >>= fun s0 =>
    if (aget (discordCachePath id) s0.disk).isSome then
      (do
        let b ← diskReadM (discordCachePath id)
        let h ← newStream b
        pure (some h))
    else
      (do
        let r ← mixinGetDiscord net id
        match r with
        | some h => do
          let b ← readAll h
          diskWriteM (discordCachePath id) b
          seekStart h
          pure (some h)
        | none => pure none)) : M (Option Nat)) s).2
  rw [getS_bind_apply]
  by_cases hd : (aget (discordCachePath id) s.disk).isSome
  · rw [if_pos hd]
    simp only [diskReadM_bind_apply, newStream_bind_apply, pure_apply]
    exact noDraws_snoc hs rfl
  · rw [if_neg hd]
    refine noDraws_bind (mixinGetDiscord_noDraws net id) (fun r s1 hs1 => ?_) s hs
    rcases r with _ | h
    · exact hs1
    · simp only [readAll_bind_apply, diskWriteM_bind_apply, seekStart_bind_apply, pure_apply]
      exact noDraws_snoc hs1 rfl

theorem mainGetEmoji_noDraws (net : Url → Option Bytes) (hash : List Char → String)
    (clsName : String) (style emoji : List Char) :
    ∀ s, noDraws s → noDraws ((mainGetEmoji net hash clsName style emoji s).2) := by
  intro s hs
  show noDraws (((getS >>= fun s0 =>
    match (if s0.cacheEnabled then aget emoji s0.emojiCache else none) with
    | some h => do
      seekStart h
      pure (some h)
    | none => do
      let r ← cachedGetEmoji net hash clsName style emoji
      match r with
      | some h => do
        let s' ← getS
        if s'.cacheEnabled then do
          emit Ev.mwrite
          let s'' ← getS
          setS { s'' with emojiCache := aput emoji h s''.emojiCache }
        else pure ()
        seekStart h
        pure (some h)
      | none => pure none) : M (Option Nat)) s).2
  rw [getS_bind_apply]
  rcases (if s.cacheEnabled then aget emoji s.emojiCache else none) with _ | h
  · refine noDraws_bind (cachedGetEmoji_noDraws net hash clsName style emoji)
      (fun r s1 hs1 => ?_) s hs
    rcases r with _ | h
    · exact hs1
    · change noDraws (((getS >>= fun s' =>
        if s'.cacheEnabled then
          emit Ev.mwrite >>= fun _ => getS >>= fun s'' =>
            setS { s'' with emojiCache := aput emoji h s''.emojiCache } >>= fun _ =>
              seekStart h >>= fun _ => pure (some h)
        else
          pure () >>= fun _ => seekStart h >>= fun _ => pure (some h)) :
          M (Option Nat)) s1).2
      rw [getS_bind_apply]
      by_cases hc : s1.cacheEnabled
      · rw [if_pos hc]
        simp only [emit_bind_apply, getS_bind_apply, setS_bind_apply,
          seekStart_bind_apply, pure_apply]
        exact noDraws_snoc hs1 rfl
      · rw [if_neg hc]
        simp only [pure_bind_apply, seekStart_bind_apply, pure_apply]
        exact hs1
  · simp only [seekStart_bind_apply, pure_apply]
    exact hs

theorem mainGetDiscord_noDraws (net : Url → Option Bytes) (content : List Char) :
    ∀ s, noDraws s → noDraws ((mainGetDiscord net content s).2) := by
  intro s hs
  show noDraws (((getS >>= fun s0 =>
    match (if s0.cacheEnabled then aget (pyIntNat content) s0.discordCache else none) with
    | some h => do
      seekStart h
      pure (some h)
    | none => do
      let r ← cachedGetDiscord net (pyIntNat content)
      match r with
      | some h => do
        let s' ← getS
        if s'.cacheEnabled then do
          emit Ev.mwrite
          let s'' ← getS
          setS { s'' with discordCache := aput (pyIntNat content) h s''.discordCache }
        else pure ()
        seekStart h
        pure (some h)
      | none => pure none) : M (Option Nat)) s).2
  rw [getS_bind_apply]
  rcases (if s.cacheEnabled then aget (pyIntNat content) s.discordCache else none) with _ | h
  · refine noDraws_bind (cachedGetDiscord_noDraws net (pyIntNat content))
      (fun r s1 hs1 => ?_) s hs
    rcases r with _ | h
    · exact hs1
    · change noDraws (((getS >>= fun s' =>
        if s'.cacheEnabled then
          emit Ev.mwrite >>= fun _ => getS >>= fun s'' =>
            setS { s'' with discordCache := aput (pyIntNat content) h s''.discordCache } >>=
              fun _ => seekStart h >>= fun _ => pure (some h)
        else
          pure () >>= fun _ => seekStart h >>= fun _ => pure (some h)) :
          M (Option Nat)) s1).2
      rw [getS_bind_apply]
      by_cases hc : s1.cacheEnabled
      · rw [if_pos hc]
        simp only [emit_bind_apply, getS_bind_apply, setS_bind_apply,
          seekStart_bind_apply, pure_apply]
        exact noDraws_snoc hs1 rfl
      · rw [if_neg hc]
        simp only [pure_bind_apply, seekStart_bind_apply, pure_apply]
        exact hs1
  · simp only [seekStart_bind_apply, pure_apply]
    exact hs

theorem fetchNode_noDraws (cfg : DrawCfg) (n : Node) :
    ∀ s, noDraws s → noDraws ((fetchNode cfg n s).2) := by
  intro s hs
  show noDraws (((getS >>= fun s0 =>
    match n.type with
    | NodeType.emoji => do
      let r ← mainGetEmoji cfg.net cfg.hash cfg.clsName cfg.style n.content
      pure (n, r)
    | NodeType.discord_emoji =>
      if s0.renderDiscord then do
        let r ← mainGetDiscord cfg.net n.content
        pure (n, r)
      else pure (n, none)
    | NodeType.text => pure (n, none)) : M (Node × Option Nat)) s).2
  rw [getS_bind_apply]
  rcases n.type
  · exact hs
  · exact noDraws_bind (mainGetEmoji_noDraws cfg.net cfg.hash cfg.clsName cfg.style n.content)
      (fun a s1 hs1 => hs1) s hs
  · by_cases hr : s.renderDiscord
    · rw [if_pos hr]
      exact noDraws_bind (mainGetDiscord_noDraws cfg.net n.content)
        (fun a s1 hs1 => hs1) s hs
    · rw [if_neg hr]
      exact hs

theorem fetchLine_noDraws (cfg : DrawCfg) :
    ∀ (line : List Node) (s : St), noDraws s → noDraws ((fetchLine cfg line s).2) := by
  intro line
  induction line with
  | nil => intro s hs; exact hs
  | cons n rest ih =>
    intro s hs
    show noDraws (((fetchNode cfg n >>= fun r =>
      fetchLine cfg rest >>= fun rs => pure (r :: rs)) : M (List (Node × Option Nat))) s).2
    exact noDraws_bind (fetchNode_noDraws cfg n)
      (fun r s1 hs1 => noDraws_bind (fun s2 hs2 => ih s2 hs2) (fun rs s2 hs2 => hs2) s1 hs1)
      s hs

theorem fetchPhase_noDraws (cfg : DrawCfg) (p : TextParams) :
    ∀ (lines : List (List Node)) (s : St), noDraws s →
      noDraws ((fetchPhase cfg p lines s).2) := by
  intro lines
  induction lines with
  | nil => intro s hs; exact hs
  | cons l ls ih =>
    intro s hs
    show noDraws (((fetchLine cfg l >>= fun rs =>
      fetchPhase cfg p ls >>= fun rest' =>
        pure ((buildLine p cfg.fontSize (cfg.textLen [' ']) rs, rs) :: rest')) :
      M (List (List Char × List (Node × Option Nat)))) s).2
    exact noDraws_bind (fetchLine_noDraws cfg l)
      (fun rs s1 hs1 => noDraws_bind (fun s2 hs2 => ih s2 hs2) (fun r s2 hs2 => hs2) s1 hs1)
      s hs

/-- An unknown `align` makes the per-line offset computation raise
`ValueError`, whatever the anchor column and widths are. -/
theorem lineDrawX_invalid (x0 : ℚ) (a0 : Char) (align : String) (diff : ℚ)
    (h1 : align ≠ "left") (h2 : align ≠ "center") (h3 : align ≠ "right") :
    lineDrawX x0 a0 align diff = Except.error Err.valueError := by
  simp [lineDrawX, h1, h2, h3]

/-- A non-empty line list keeps `fetchPhase` results non-empty. -/
theorem fetchPhase_cons_ne_nil {cfg : DrawCfg} {p : TextParams} {l : List Node}
    {ls : List (List Node)} {st s' : St}
    {ld : List (List Char × List (Node × Option Nat))}
    (h : fetchPhase cfg p (l :: ls) st = (Except.ok ld, s')) : ld ≠ [] := by
  rw [show fetchPhase cfg p (l :: ls) = (do
      let rs ← fetchLine cfg l
      let tl := buildLine p cfg.fontSize (cfg.textLen [' ']) rs
      let rest' ← fetchPhase cfg p ls
      pure ((tl, rs) :: rest')) from rfl] at h
  rcases h1 : (fetchLine cfg l) st with ⟨r1, s1⟩
  cases r1 with
  | error e =>
    rw [mbind_err h1] at h
    exact absurd h (by simp)
  | ok rs =>
    rw [mbind_ok h1] at h
    rcases h2 : (fetchPhase cfg p ls) s1 with ⟨r2, s2⟩
    cases r2 with
    | error e =>
      rw [mbind_err h2] at h
      exact absurd h (by simp)
    | ok rest' =>
      rw [mbind_ok h2] at h
      simp only [pure_apply, Prod.mk.injEq, Except.ok.injEq] at h
      rcases h with ⟨h, _⟩
      subst h
      simp

/-- A non-empty input has at least one line (`str.splitlines`). -/
theorem pySplitlinesAux_ne_nil :
    ∀ (rest acc : List Char), acc ≠ [] ∨ rest ≠ [] → pySplitlinesAux acc rest ≠ []
  | [], acc, h => by
    have hacc : acc ≠ [] := by
      rcases h with h | h
      · exact h
      · exact absurd rfl h
    simp only [pySplitlinesAux]
    rw [if_neg hacc]
    simp
  | [c], acc, _ => by
    simp only [pySplitlinesAux]
    split <;> simp
  | c :: c2 :: r, acc, _ => by
    simp only [pySplitlinesAux]
    split
    · simp
    · split
      · simp
      · exact pySplitlinesAux_ne_nil (c2 :: r) (c :: acc) (Or.inl (by simp))

/-- `to_nodes` of a non-empty text has at least one line. -/
theorem to_nodes_ne_nil {emojis : List (List Char)} {text : List Char}
    (h : text ≠ []) : to_nodes emojis text ≠ [] := by
  unfold to_nodes pySplitlines
  intro hmap
  exact pySplitlinesAux_ne_nil text [] (Or.inr h) (List.map_eq_nil_iff.mp hmap)

/-- Anchor strings that are not exactly two characters raise `ValueError`
synchronously, before any effect: the state is returned untouched. -/
theorem drawText_anchor_len_err {cfg : DrawCfg} {p : TextParams} {text : List Char}
    {st : St} {a : List Char} (ha : p.anchor = some a) (hlen : a.length ≠ 2) :
    drawText cfg p text st = (Except.error Err.valueError, st) := by
  show (drawText cfg p text) st = _
  simp only [drawText, ha]
  rw [if_pos hlen]
  rfl

/-- A two-character anchor with vertical component `t` or `b` combined with
a text containing `\n` raises `ValueError` with the state untouched. -/
theorem drawText_anchor_vert_err {cfg : DrawCfg} {p : TextParams} {text : List Char}
    {st : St} {a : List Char} (ha : p.anchor = some a) (hlen : a.length = 2)
    (hvert : a.getD 1 ' ' = 't' ∨ a.getD 1 ' ' = 'b') (hnl : '\n' ∈ text) :
    drawText cfg p text st = (Except.error Err.valueError, st) := by
  show (drawText cfg p text) st = _
  simp only [drawText, ha]
  rw [if_neg (by simp [hlen])]
  rw [if_pos ⟨hvert, hnl⟩]
  rfl

/-- Direction `ttb` combined with a text containing `\n` raises `ValueError`
with the state untouched, whatever the anchor is. -/
theorem drawText_ttb_err {cfg : DrawCfg} {p : TextParams} {text : List Char}
    {st : St} (hdir : p.direction = some "ttb") (hnl : '\n' ∈ text) :
    drawText cfg p text st = (Except.error Err.valueError, st) := by
  rcases hanc : p.anchor with _ | a
  · show (drawText cfg p text) st = _
    simp only [drawText, hanc, pure_bind_apply]
    rw [if_pos ⟨hdir, hnl⟩]
    rfl
  · by_cases hlen : a.length ≠ 2
    · exact drawText_anchor_len_err hanc hlen
    · rw [not_not] at hlen
      by_cases hvert : a.getD 1 ' ' = 't' ∨ a.getD 1 ' ' = 'b'
      · exact drawText_anchor_vert_err hanc hlen hvert hnl
      · show (drawText cfg p text) st = _
        simp only [drawText, hanc]
        rw [if_neg (by simp [hlen])]
        rw [if_neg (fun hc => hvert hc.1)]
        rw [pure_bind_apply]
        rw [if_pos ⟨hdir, hnl⟩]
        rfl

/-- Unfolding `drawText` when the validations pass on a `none` anchor and
direction, the fetch phase succeeds, the line list is non-empty and the
align parameter is unknown: the call stops with `ValueError` in the state
left by the fetch phase. -/
theorem drawText_align_aux {cfg : DrawCfg} {p : TextParams} {text : List Char}
    {st s' : St} {ld : List (List Char × List (Node × Option Nat))}
    (ha : p.anchor = none) (hd : p.direction = none)
    (h1 : p.align ≠ "left") (h2 : p.align ≠ "center") (h3 : p.align ≠ "right")
    (hfetch : fetchPhase cfg p (to_nodes cfg.emojis text) st = (Except.ok ld, s'))
    (hld : ld ≠ []) :
    drawText cfg p text st = (Except.error Err.valueError, s') := by
  obtain ⟨d, ld', rfl⟩ : ∃ d ld', ld = d :: ld' := by
    cases ld with
    | nil => exact absurd rfl hld
    | cons d ld' => exact ⟨d, ld', rfl⟩
  show (drawText cfg p text) st = _
  simp only [drawText, ha, hd, pure_bind_apply, reduceCtorEq, false_and, if_false]
  rw [mbind_ok hfetch]
  rcases d with ⟨tl, rs⟩
  simp only [drawPhase, List.getD_cons_succ, List.getD_cons_zero]
  rw [lineDrawX_invalid _ _ _ _ h1 h2 h3]
  rfl

/-- With a `none` anchor and direction, a non-empty text and an unknown
`align`, `drawText` raises (either the transport error of the fetch phase or
the align `ValueError`), and its trace holds no canvas draw or paste event:
the canvas is never mutated, although fetches and cache writes may have
happened. -/
theorem drawText_align_err {cfg : DrawCfg} {p : TextParams} {text : List Char}
    {st : St} (ha : p.anchor = none) (hd : p.direction = none)
    (h1 : p.align ≠ "left") (h2 : p.align ≠ "center") (h3 : p.align ≠ "right")
    (htext : text ≠ []) (htr : st.trace = []) :
    (∃ e, (drawText cfg p text st).1 = Except.error e) ∧
      ∀ ev ∈ (drawText cfg p text st).2.trace, pureEv ev = true := by
  have hst : noDraws st := by
    intro ev hev
    rw [htr] at hev
    simp at hev
  rcases hfp : fetchPhase cfg p (to_nodes cfg.emojis text) st with ⟨r, s1⟩
  have hnd : noDraws s1 := by
    have := fetchPhase_noDraws cfg p (to_nodes cfg.emojis text) st hst
    rw [hfp] at this
    exact this
  cases r with
  | error e =>
    have hdr : drawText cfg p text st = (Except.error e, s1) := by
      show (drawText cfg p text) st = _
      simp only [drawText, ha, hd, pure_bind_apply, reduceCtorEq, false_and, if_false]
      rw [mbind_err hfp]
    rw [hdr]
    exact ⟨⟨e, rfl⟩, hnd⟩
  | ok ld =>
    have hld : ld ≠ [] := by
      obtain ⟨l, ls, hcons⟩ : ∃ l ls, to_nodes cfg.emojis text = l :: ls := by
        rcases hN : to_nodes cfg.emojis text with _ | ⟨l, ls⟩
        · exact absurd hN (to_nodes_ne_nil htext)
        · exact ⟨l, ls, rfl⟩
      rw [hcons] at hfp
      exact fetchPhase_cons_ne_nil hfp
    have hdr : drawText cfg p text st = (Except.error Err.valueError, s1) :=
      drawText_align_aux ha hd h1 h2 h3 hfp hld
    rw [hdr]
    exact ⟨⟨Err.valueError, rfl⟩, hnd⟩

/-- Fetching the scenario's emoji node succeeds and leaves `cexMid`. -/
theorem cexFetchNode :
    fetchNode cexCfg cexNode cexStart = (Except.ok (cexNode, some 0), cexMid) := rfl

/-- Fetching the scenario's one-node line. -/
theorem cexFetchLine :
    fetchLine cexCfg [cexNode] cexStart = (Except.ok [(cexNode, some 0)], cexMid) := by
  show (fetchLine cexCfg [cexNode]) cexStart = _
  simp only [fetchLine]
  rw [mbind_ok cexFetchNode]
  rfl

/-- The whole fetch phase of the scenario. -/
theorem cexFetchPhase :
    fetchPhase cexCfg cexBadParams (to_nodes cexCfg.emojis ['e']) cexStart =
      (Except.ok [(buildLine cexBadParams cexCfg.fontSize (cexCfg.textLen [' '])
          [(cexNode, some 0)], [(cexNode, some 0)])], cexMid) := by
  have hn : to_nodes cexCfg.emojis ['e'] = [[cexNode]] := rfl
  rw [hn]
  show (fetchPhase cexCfg cexBadParams [[cexNode]]) cexStart = _
  simp only [fetchPhase]
  rw [mbind_ok cexFetchLine]
  rfl

/-! ### Theorems for the claims -/

/-- C1, counterexample: with a network that always errors, drawing the
one-emoji text `"e"` raises `aiohttp.ClientError` out of
`PilmojiDrawer.text` (the draw call does not complete); the trace shows the
one attempted request and no draw or paste. -/
theorem c1_network_error_cex :
    (drawText cexFailCfg cexOkParams ['e'] cexStart).1 = Except.error Err.clientError ∧
      (drawText cexFailCfg cexOkParams ['e'] cexStart).2.trace =
        [Ev.netGet (Url.cdn ['e'] ['t'])] :=
  ⟨rfl, rfl⟩

/-- C1, amended: a transport failure is not downgraded to a missing asset —
`EmojiCDNSource.get_emoji` re-raises `aiohttp.ClientError` and neither
`PilmojiMain._get_emoji` nor `PilmojiDrawer.text` catches it, so the draw
call aborts with the transport error.  For every text whose tokenization
contains a unicode-emoji node, every session state with empty memory caches
and an empty durable store, and a network that always errors, `text` raises
`ClientError` (the blank-gap behaviour only applies to a source returning
`None`, which the HTTP sources never do). -/
theorem c1_transport_error_propagates (cfg : DrawCfg) (p : TextParams)
    (text : List Char) (st : St)
    (hnet : ∀ u, cfg.net u = none) (ha : p.anchor = none) (hd : p.direction = none)
    (hm : st.emojiCache = []) (hdc : st.discordCache = []) (hk : st.disk = [])
    (htrig : ∃ l ∈ to_nodes cfg.emojis text, ∃ n ∈ l, n.type = NodeType.emoji) :
    (drawText cfg p text st).1 = Except.error Err.clientError := by
  have htrig' : ∃ l ∈ to_nodes cfg.emojis text, ∃ n ∈ l, Trig st.renderDiscord n := by
    rcases htrig with ⟨l, hl, n, hn, ht⟩
    exact ⟨l, hl, n, hn, Or.inl ht⟩
  obtain ⟨s', herr⟩ := fetchPhase_err hnet (to_nodes cfg.emojis text) st hm hdc hk htrig'
  show ((drawText cfg p text) st).1 = _
  simp only [drawText, ha, hd, pure_bind_apply, reduceCtorEq, false_and, if_false]
  rw [mbind_err herr]

/-- C1, amended, witness: the hypotheses hold and the conclusion follows at
the concrete failing-network scenario. -/
theorem c1_transport_error_witness :
    (drawText cexFailCfg cexOkParams ['e'] cexStart).1 = Except.error Err.clientError :=
  c1_transport_error_propagates cexFailCfg cexOkParams ['e'] cexStart
    (fun _ => rfl) rfl rfl rfl rfl rfl (by decide)

/-- C3, counterexample: an invalid `align` does raise `ValueError`, but not
with zero side effects: before the error the emoji was fetched over the
network, written to the durable cache and inserted into the memory cache
(the validation of `align` happens per line, after the whole fetch phase). -/
theorem c3_align_side_effects_cex :
    drawText cexCfg cexBadParams ['e'] cexStart = (Except.error Err.valueError, cexMid) ∧
      cexStart.trace = [] ∧ cexStart.disk = [] ∧ cexStart.emojiCache = [] ∧
      Ev.netGet (Url.cdn ['e'] ['t']) ∈ cexMid.trace ∧
      Ev.dwrite "T_h.png" ∈ cexMid.trace ∧ Ev.mwrite ∈ cexMid.trace ∧
      cexMid.disk ≠ [] ∧ cexMid.emojiCache ≠ [] := by
  refine ⟨?_, rfl, rfl, rfl, by decide, by decide, by decide, by decide, by decide⟩
  exact drawText_align_aux rfl rfl (by decide) (by decide) (by decide)
    cexFetchPhase (by simp)

/-- C5, counterexample: at `emoji_scale_factor × font.size = 1/2`,
`offset_x = 1`, `node_spacing = 0` and a one-pixel space, the code's space
count (`spaceCount`, inner round on the scaled size first) is 1, while the
claim's formula (`specSpaceCount`, one round over the whole sum) gives 2:
Python's round-half-to-even sends `0.5` to 0 but `1.5` to 2. -/
theorem c5_space_count_cex :
    spaceCount (1 / 2) 1 1 0 1 = 1 ∧ specSpaceCount (1 / 2) 1 1 0 1 = 2 ∧
      ¬ spaceCount (1 / 2) 1 1 0 1 = specSpaceCount (1 / 2) 1 1 0 1 := by
  have h1 : spaceCount (1 / 2) 1 1 0 1 = 1 := by
    simp only [spaceCount, pythonRound]
    norm_num
  have h2 : specSpaceCount (1 / 2) 1 1 0 1 = 2 := by
    simp only [specSpaceCount, pythonRound]
    norm_num
  exact ⟨h1, h2, by rw [h1, h2]; decide⟩

/-- C5, amended: the substituted space-run count is
`round(round(scale_factor × font_nominal_size) + offset_x + 2×node_spacing
/ space_width)` — the rounding applies to the scaled font size alone, the
integer offsets are added outside it (the outer `round` of the source is the
identity on that integer sum). -/
theorem c5_space_count (scale fontSize : ℚ) (ox ns : ℤ) (spaceLen : ℚ) :
    spaceCount scale fontSize ox ns spaceLen =
      pythonRound (((pythonRound (scale * fontSize) + ox + 2 * ns : ℤ) : ℚ) / spaceLen) := by
  simp only [spaceCount, pythonRound_intCast]
  have h : (pythonRound (scale * fontSize) + ox + ns * 2 : ℤ) =
      pythonRound (scale * fontSize) + ox + 2 * ns := by ring
  rw [h]

/-- C10: `getsize` on the empty string returns width 0 and height
`-spacing` for every font size, measurement function, scale and spacing; in
particular the height is negative for the default spacing 4. -/
theorem c10_getsize_empty (emojis : List (List Char)) (fontSize : ℤ)
    (textWidth : List Char → ℚ) (scale : ℚ) (spacing : ℤ) :
    getsize emojis fontSize textWidth scale spacing [] = (0, -spacing) ∧
      (getsize emojis fontSize textWidth scale 4 []).2 < 0 := by
  have h : ∀ s : ℤ, getsize emojis fontSize textWidth scale s [] = (0, -s) := by
    intro s
    have hn : to_nodes emojis [] = [] := rfl
    simp only [getsize, hn, List.foldl_nil]
    norm_num
  exact ⟨h spacing, by rw [h 4]; decide⟩

/-- C9, counterexample: the unicode durable-cache filename is not one hash
over `style-identity + emoji-key`: for the (stable) digest function that
sends every input to `"h"`, the code's filename keeps the style identity
readable outside the hash, while the spec's formula hides it inside. -/
theorem c9_path_cex :
    emojiCachePath (fun _ => "h") "TwitterEmojiSource" ['a'] = "TwitterEmojiSource_h.png" ∧
      specPairEmojiPath (fun _ => "h") "TwitterEmojiSource" ['a'] = "h.png" ∧
      ¬ emojiCachePath (fun _ => "h") "TwitterEmojiSource" ['a'] =
          specPairEmojiPath (fun _ => "h") "TwitterEmojiSource" ['a'] := by
  refine ⟨rfl, rfl, by decide⟩

/-- C9, amended: the unicode durable-cache filename is the style identity
(source class name), an underscore, a stable hash of the emoji key alone,
and `.png` — the style identity stays outside the hash input (the filename
depends on the hash only through its value at the emoji key); the custom
emoji filename is the fixed prefix `discord_` followed by the literal
numeric id and `.png`. -/
theorem c9_paths (hash hash' : List Char → String) (clsName : String)
    (emoji : List Char) (id : Nat) :
    emojiCachePath hash clsName emoji = clsName ++ "_" ++ hash emoji ++ ".png" ∧
      discordCachePath id = "discord_" ++ toString id ++ ".png" ∧
      (hash' emoji = hash emoji →
        emojiCachePath hash' clsName emoji = emojiCachePath hash clsName emoji) := by
  refine ⟨rfl, rfl, fun h => ?_⟩
  simp [emojiCachePath, h]

/-- C9, amended, witness: the amended statement at concrete inputs. -/
theorem c9_paths_witness :
    (fun _ => "h" : List Char → String) ['a'] = (fun _ => "h" : List Char → String) ['a'] ∧
      emojiCachePath (fun _ => "h") "T" ['a'] = emojiCachePath (fun _ => "h") "T" ['a'] := by
  exact ⟨rfl, (c9_paths (fun _ => "h") (fun _ => "h") "T" ['a'] 0).2.2 rfl⟩

/-- C3, amended: the anchor and direction validations raise `ValueError`
synchronously with zero side effects (the state, hence canvas, caches,
durable store and trace, is returned untouched); the `align` validation also
raises before any canvas mutation (no draw or paste event is ever emitted),
but only per line inside the second loop — asset fetches and cache writes of
the whole fetch phase may already have happened, and with an empty text
(no lines) an invalid `align` does not raise at all. -/
theorem c3_validation_behaviour :
    (∀ (cfg : DrawCfg) (p : TextParams) (text : List Char) (st : St) (a : List Char),
        p.anchor = some a → a.length ≠ 2 →
        drawText cfg p text st = (Except.error Err.valueError, st)) ∧
      (∀ (cfg : DrawCfg) (p : TextParams) (text : List Char) (st : St) (a : List Char),
        p.anchor = some a → a.length = 2 →
        (a.getD 1 ' ' = 't' ∨ a.getD 1 ' ' = 'b') → '\n' ∈ text →
        drawText cfg p text st = (Except.error Err.valueError, st)) ∧
      (∀ (cfg : DrawCfg) (p : TextParams) (text : List Char) (st : St),
        p.direction = some "ttb" → '\n' ∈ text →
        drawText cfg p text st = (Except.error Err.valueError, st)) ∧
      (∀ (cfg : DrawCfg) (p : TextParams) (text : List Char) (st : St),
        p.anchor = none → p.direction = none →
        p.align ≠ "left" → p.align ≠ "center" → p.align ≠ "right" →
        text ≠ [] → st.trace = [] →
        (∃ e, (drawText cfg p text st).1 = Except.error e) ∧
          ∀ ev ∈ (drawText cfg p text st).2.trace, pureEv ev = true) := by
  refine ⟨?_, ?_, ?_, ?_⟩
  · intro cfg p text st a ha hlen
    exact drawText_anchor_len_err ha hlen
  · intro cfg p text st a ha hlen hvert hnl
    exact drawText_anchor_vert_err ha hlen hvert hnl
  · intro cfg p text st hdir hnl
    exact drawText_ttb_err hdir hnl
  · intro cfg p text st ha hd h1 h2 h3 htext htr
    exact drawText_align_err ha hd h1 h2 h3 htext htr

/-- C3, amended, witness: a one-character anchor raises with the state
untouched at the concrete scenario. -/
theorem c3_validation_witness :
    drawText cexCfg { cexOkParams with anchor := some ['x'] } ['e'] cexStart =
      (Except.error Err.valueError, cexStart) :=
  c3_validation_behaviour.1 cexCfg { cexOkParams with anchor := some ['x'] }
    ['e'] cexStart ['x'] rfl (by decide)

/-- C6: the per-line horizontal offset starts at the original x; anchor
column `m` subtracts half of `maxWidth − lineWidth`, `r` subtracts it in
full; then align `center` adds half of it back, `right` adds it in full and
`left` adds nothing (the align adjustment is applied after the anchor one,
not instead of it). -/
theorem c6_line_offset (x diff : ℚ) (a0 : Char) (align : String)
    (h : align = "left" ∨ align = "center" ∨ align = "right") :
    lineDrawX x a0 align diff =
      Except.ok (x - (if a0 = 'm' then diff / 2 else if a0 = 'r' then diff else 0)
        + (if align = "center" then diff / 2
           else if align = "right" then diff else 0)) := by
  rcases h with h | h | h <;> subst h <;> unfold lineDrawX <;>
    by_cases h1 : a0 = 'm' <;> by_cases h2 : a0 = 'r' <;>
      simp [h1, h2]

/-- C6, witness: anchor column `m` with align `center` at x = 0,
`maxWidth − lineWidth = 2`: the adjustments cancel. -/
theorem c6_line_offset_witness :
    ("center" = "left" ∨ "center" = "center" ∨ "center" = "right") ∧
      lineDrawX 0 'm' "center" 2 =
        Except.ok (0 - (if ('m' : Char) = 'm' then (2 : ℚ) / 2
            else if ('m' : Char) = 'r' then 2 else 0)
          + (if ("center" : String) = "center" then (2 : ℚ) / 2
             else if ("center" : String) = "right" then 2 else 0)) := by
  exact ⟨Or.inr (Or.inl rfl), c6_line_offset 0 2 'm' "center" (Or.inr (Or.inl rfl))⟩

/-- C7, counterexample: on a memory hit both callers receive the very same
stream handle 0; caller one reads it to the end (position 3), and caller
two's acquisition rewinds that same stream to position 0 — the two callers
share one read position, they do not hold independent views. -/
theorem c7_shared_stream_cex :
    (c7prog cexCfg cexHitState).1 = Except.ok (some 0, some 0, 3, 0) := by
  decide

/-- C7, amended: on a memory-cache hit, `_get_emoji` returns the cached
`BytesIO` object itself, after seeking it to position 0; the buffers are
untouched and the returned handle is exactly the cached one, so every
caller for the same key shares the same stream object and read position. -/
theorem c7_memory_hit_shares_stream (net : Url → Option Bytes)
    (hash : List Char → String) (clsName : String) (style emoji : List Char)
    (st : St) (h : Nat) (hc : st.cacheEnabled = true)
    (hk : aget emoji st.emojiCache = some h) :
    mainGetEmoji net hash clsName style emoji st =
      (Except.ok (some h),
        { st with streams := { st.streams with pos := st.streams.pos.set h 0 } }) := by
  show ((getS >>= fun s0 =>
    match (if s0.cacheEnabled then aget emoji s0.emojiCache else none) with
    | some h => do
      seekStart h
      pure (some h)
    | none => do
      let r ← cachedGetEmoji net hash clsName style emoji
      match r with
      | some h => do
        let s' ← getS
        if s'.cacheEnabled then do
          emit Ev.mwrite
          let s'' ← getS
          setS { s'' with emojiCache := aput emoji h s''.emojiCache }
        else pure ()
        seekStart h
        pure (some h)
      | none => pure none) : M (Option Nat)) st = _
  rw [getS_bind_apply]
  rw [show (if st.cacheEnabled then aget emoji st.emojiCache else none) = some h by
    rw [if_pos (by simp [hc]), hk]]
  rfl

/-- C7, amended, witness: at the concrete cached state the hit returns
handle 0 with its position reset. -/
theorem c7_memory_hit_witness :
    mainGetEmoji cexCfg.net cexCfg.hash cexCfg.clsName cexCfg.style ['e'] cexHitState =
      (Except.ok (some 0),
        { cexHitState with streams :=
          { cexHitState.streams with pos := cexHitState.streams.pos.set 0 0 } }) :=
  c7_memory_hit_shares_stream cexCfg.net cexCfg.hash cexCfg.clsName cexCfg.style
    ['e'] cexHitState 0 rfl rfl

/-- C8: a second `close` raises `ValueError`; a successful first `close`
empties the per-session emoji caches and leaves the durable store untouched.
The hypothesis `hinv` is the session invariant that with caching disabled
the memory caches are never populated (they start empty — `initState` — and
every insertion in `_get_emoji` / `_get_discord_emoji` is guarded by the
cache flag); under it the caches are empty after `close` in both cases. -/
theorem c8_close_lifecycle (st : St) (hopen : st.closed = false)
    (hinv : st.cacheEnabled = false → st.emojiCache = [] ∧ st.discordCache = []) :
    ∃ st', close st = (Except.ok (), st') ∧ st'.emojiCache = [] ∧
      st'.discordCache = [] ∧ st'.disk = st.disk ∧ st'.closed = true ∧
      (close st').1 = Except.error Err.valueError := by
  have hclose : close = (getS >>= fun s =>
      if s.closed then throwM Err.valueError
      else if s.cacheEnabled then
        setS { s with emojiCache := [], discordCache := [], closed := true }
      else
        setS { s with closed := true }) := rfl
  by_cases hc : st.cacheEnabled
  · refine ⟨{ st with emojiCache := [], discordCache := [], closed := true },
      ?_, rfl, rfl, rfl, rfl, rfl⟩
    rw [hclose, getS_bind_apply, if_neg (by simp [hopen]), if_pos (by simp [hc])]
    rfl
  · have hcf : st.cacheEnabled = false := by simpa using hc
    obtain ⟨he, hd⟩ := hinv hcf
    refine ⟨{ st with closed := true }, ?_, he, hd, rfl, rfl, rfl⟩
    rw [hclose, getS_bind_apply, if_neg (by simp [hopen]), if_neg (by simp [hcf])]
    rfl

/-- C8, witness: at the fresh concrete session the first close succeeds,
clears the caches, keeps the durable store and the second close raises. -/
theorem c8_close_witness :
    cexStart.closed = false ∧
      ∃ st', close cexStart = (Except.ok (), st') ∧ st'.emojiCache = [] ∧
        st'.discordCache = [] ∧ st'.disk = cexStart.disk ∧ st'.closed = true ∧
        (close st').1 = Except.error Err.valueError :=
  ⟨rfl, c8_close_lifecycle cexStart rfl (fun h => absurd h (by decide))⟩

/-- `PilmojiMain.__init__` satisfies the cache invariant used by C8: a fresh
session has empty memory caches. -/
theorem initState_cache_inv (c r : Bool) (d : List (String × Bytes)) :
    (initState c r d).emojiCache = [] ∧ (initState c r d).discordCache = [] :=
  ⟨rfl, rfl⟩

/-- In a list sorted by length in decreasing order (as `EMOJI_REGEX` is
built), the first matching alternative is at least as long as any matching
one. -/
theorem findEmoji_longest {emojis : List (List Char)}
    (hsorted : List.Pairwise (fun a b => b.length ≤ a.length) emojis)
    {s e2 : List Char} (h2 : e2 ∈ emojis) (hp2 : e2 <+: s) (hne : e2 ≠ []) :
    ∃ m, findEmoji emojis s = some m ∧ e2.length ≤ m.length := by
  induction emojis with
  | nil => simp at h2
  | cons a t ih =>
    rcases List.pairwise_cons.mp hsorted with ⟨hhead, htail⟩
    by_cases hpa : (!a.isEmpty && a.isPrefixOf s) = true
    · refine ⟨a, ?_, ?_⟩
      · unfold findEmoji
        simp only [List.find?]
        rw [hpa]
      · rcases List.mem_cons.mp h2 with rfl | h2t
        · exact le_refl _
        · exact hhead e2 h2t
    · have h2t : e2 ∈ t := by
        rcases List.mem_cons.mp h2 with rfl | h2t
        · exfalso
          apply hpa
          simp [List.isPrefixOf_iff_prefix.mpr hp2, hne]
        · exact h2t
      obtain ⟨m, hm, hlen⟩ := ih htail h2t
      refine ⟨m, ?_, hlen⟩
      unfold findEmoji
      simp only [List.find?]
      rw [show (!a.isEmpty && a.isPrefixOf s) = false from Bool.not_eq_true _ |>.mp hpa]
      exact hm

/-- C4: greedy longest-first matching — when one known emoji sequence is a
proper prefix of another and both match at the current position, the
tokenizer's matcher (`findEmoji`, hence `selectMatch`) selects a match at
least as long as the longer sequence, so the shorter prefix never shadows
it; `hsorted` is the `sorted(..., key=len, reverse=True)` invariant of
`EMOJI_REGEX`. -/
theorem c4_longest_match (emojis : List (List Char)) (s e1 e2 : List Char)
    (hsorted : List.Pairwise (fun a b => b.length ≤ a.length) emojis)
    (h1 : e1 ∈ emojis) (h2 : e2 ∈ emojis) (hp1 : e1 <+: s) (hp2 : e2 <+: s)
    (hpp : e1 <+: e2) (hlt : e1.length < e2.length) :
    ∃ m, findEmoji emojis s = some m ∧ e2.length ≤ m.length ∧
      e1.length < m.length ∧ selectMatch emojis s = some m.length := by
  have hne : e2 ≠ [] := by
    intro h
    rw [h] at hlt
    simp at hlt
  obtain ⟨m, hm, hlen⟩ := findEmoji_longest hsorted h2 hp2 hne
  refine ⟨m, hm, hlen, lt_of_lt_of_le hlt hlen, ?_⟩
  unfold selectMatch
  rw [hm]

/-- C4, witness: with alternatives `ab`, `a` (longest first) and input
`abc`, the matcher selects `ab`, not its proper prefix `a`. -/
theorem c4_longest_match_witness :
    ∃ m, findEmoji [['a', 'b'], ['a']] ['a', 'b', 'c'] = some m ∧
      (['a', 'b'] : List Char).length ≤ m.length ∧
      (['a'] : List Char).length < m.length ∧
      selectMatch [['a', 'b'], ['a']] ['a', 'b', 'c'] = some m.length :=
  c4_longest_match [['a', 'b'], ['a']] ['a', 'b', 'c'] ['a'] ['a', 'b']
    (by decide) (by decide) (by decide) (by decide) (by decide) (by decide)
    (by decide)

/-! ### Tokenizer losslessness (C2) -/

/-- The maximal run is no longer than the list. -/
theorem runLen_le (p : Char → Bool) : ∀ l : List Char, runLen p l ≤ l.length
  | [] => by simp [runLen]
  | c :: rest => by
    simp only [runLen]
    split
    · simpa using Nat.succ_le_succ (runLen_le p rest)
    · simp

/-- Every character of the maximal run satisfies the predicate. -/
theorem runLen_take_all (p : Char → Bool) :
    ∀ l : List Char, ∀ c ∈ l.take (runLen p l), p c = true
  | [] => by simp [runLen]
  | c :: rest => by
    simp only [runLen]
    split
    · rename_i hp
      intro x hx
      rw [List.take_succ_cons] at hx
      rcases List.mem_cons.mp hx with rfl | hx'
      · exact hp
      · exact runLen_take_all p rest x hx'
    · intro x hx
      simp at hx

/-- Length of the maximal-run prefix. -/
theorem length_take_runLen (p : Char → Bool) (l : List Char) :
    (l.take (runLen p l)).length = runLen p l := by
  rw [List.length_take]
  exact Nat.min_eq_left (runLen_le p l)

/-- The length of a wire token. -/
theorem wireToken_length (a : Bool) (name digs : List Char) :
    (wireToken a name digs).length =
      (if a then 1 else 0) + name.length + digs.length + 4 := by
  cases a <;> simp [wireToken] <;> omega

/-- Structure of a successful `discordTail` match: the consumed prefix is
`:name:digits>` with admissible name and digits. -/
theorem discordTail_shape : ∀ {s : List Char} {k : Nat}, discordTail s = some k →
    ∃ name digs rest, s = ':' :: (name ++ ':' :: (digs ++ '>' :: rest)) ∧
      validName name ∧ validId digs ∧
      s.take k = ':' :: (name ++ ':' :: (digs ++ ['>'])) ∧
      k = 1 + name.length + (1 + digs.length + 1) := by
  intro s k h
  unfold discordTail at h
  split at h
  case _ r =>
    split at h
    case isFalse => exact absurd h (by simp)
    case isTrue hcond =>
      split at h
      case _ r2 heq2 =>
        split at h
        case isFalse => exact absurd h (by simp)
        case isTrue hcond2 =>
          split at h
          case _ c3 r3 heq3 =>
            have hk : k = 1 + runLen isNameChar r +
                (1 + runLen Char.isDigit r2 + 1) := (Option.some.inj h).symm
            have hr : r = r.take (runLen isNameChar r) ++ ':' :: r2 := by
              conv_lhs => rw [← List.take_append_drop (runLen isNameChar r) r]
              rw [heq2]
            have hr2 : r2 = r2.take (runLen Char.isDigit r2) ++ '>' :: r3 := by
              conv_lhs => rw [← List.take_append_drop (runLen Char.isDigit r2) r2]
              rw [heq3]
            refine ⟨r.take (runLen isNameChar r), r2.take (runLen Char.isDigit r2),
              r3, ?_, ?_, ?_, ?_, by
                rw [length_take_runLen, length_take_runLen]
                omega⟩
            · show ':' :: r = _
              conv_lhs => rw [hr]
              conv_lhs => rw [hr2]
            · refine ⟨?_, ?_, runLen_take_all isNameChar r⟩
              · refine List.length_pos.mp ?_
                rw [length_take_runLen]
                omega
              · rw [length_take_runLen]
                exact hcond.2
            · refine ⟨?_, ?_, runLen_take_all Char.isDigit r2⟩
              · rw [length_take_runLen]
                exact hcond2.1
              · rw [length_take_runLen]
                exact hcond2.2
            · show List.take k (':' :: r) = _
              have hk1 : k = (runLen isNameChar r + (1 + runLen Char.isDigit r2 + 1)) + 1 := by
                omega
              rw [hk1, List.take_succ_cons]
              have hX : r = (r.take (runLen isNameChar r) ++
                  ':' :: (r2.take (runLen Char.isDigit r2) ++ ['>'])) ++ r3 := by
                conv_lhs => rw [hr]
                conv_lhs => rw [hr2]
                simp
              have hm : runLen isNameChar r + (1 + runLen Char.isDigit r2 + 1) =
                  (r.take (runLen isNameChar r) ++
                    ':' :: (r2.take (runLen Char.isDigit r2) ++ ['>'])).length := by
                have h1 := length_take_runLen isNameChar r
                have h2 := length_take_runLen Char.isDigit r2
                simp only [List.length_append, List.length_cons, List.length_nil, h1, h2]
                omega
              nth_rewrite 2 [hX]
              rw [hm]
              rw [List.take_left]
          case _ => exact absurd h (by simp)
      case _ => exact absurd h (by simp)
  case _ => exact absurd h (by simp)

/-- Structure of a successful `discordMatch`: the matched prefix is a
well-formed wire token, longer than 18 characters. -/
theorem discordMatch_shape : ∀ {s : List Char} {n : Nat}, discordMatch s = some n →
    ∃ aflag name digs, validName name ∧ validId digs ∧
      s.take n = wireToken aflag name digs ∧ 18 < n := by
  intro s n h
  unfold discordMatch at h
  split at h
  case _ rest =>
    rcases hfst : (match rest with
      | 'a' :: rest2 => (discordTail rest2).map (fun n => 2 + n)
      | _ => none) with _ | n1
    · rw [hfst] at h
      simp only [Option.orElse] at h
      rcases Option.map_eq_some'.mp h with ⟨k, hk, hn⟩
      obtain ⟨name, digs, r3, hshape, hvn, hvi, htake, hkval⟩ := discordTail_shape hk
      refine ⟨false, name, digs, hvn, hvi, ?_, ?_⟩
      · show List.take n ('<' :: rest) = _
        have h1 : n = k + 1 := by omega
        rw [h1, List.take_succ_cons, htake]
        simp [wireToken]
      · rcases hvn with ⟨hne, _, _⟩
        rcases hvi with ⟨h17, _, _⟩
        have : 1 ≤ name.length := List.length_pos.mpr hne
        omega
    · rw [hfst] at h
      simp only [Option.orElse] at h
      split at hfst
      case _ rest2 =>
        rcases Option.map_eq_some'.mp hfst with ⟨k, hk, hn1⟩
        obtain ⟨name, digs, r3, hshape, hvn, hvi, htake, hkval⟩ := discordTail_shape hk
        have hn : n = n1 := (Option.some.inj h).symm
        refine ⟨true, name, digs, hvn, hvi, ?_, ?_⟩
        · show List.take n ('<' :: 'a' :: rest2) = _
          have h1 : n = (k + 1) + 1 := by omega
          rw [h1, List.take_succ_cons, List.take_succ_cons, htake]
          simp [wireToken]
        · rcases hvn with ⟨hne, _, _⟩
          rcases hvi with ⟨h17, _, _⟩
          have : 1 ≤ name.length := List.length_pos.mpr hne
          omega
      case _ => exact absurd hfst (by simp)
  case _ => exact absurd h (by simp)

/-- A successful `selectMatch` consumes a known emoji or a wire token. -/
theorem selectMatch_matchedOK {emojis : List (List Char)} {s : List Char} {n : Nat}
    (h : selectMatch emojis s = some n) : MatchedOK emojis (s.take n) := by
  unfold selectMatch at h
  rcases hfind : findEmoji emojis s with _ | e
  · rw [hfind] at h
    obtain ⟨aflag, name, digs, hvn, hvi, htake, _⟩ := discordMatch_shape h
    exact Or.inr ⟨aflag, name, digs, hvn, hvi, htake⟩
  · rw [hfind] at h
    have hn : n = e.length := (Option.some.inj h).symm
    have hmem : e ∈ emojis := List.mem_of_find?_eq_some hfind
    have hpred := List.find?_some hfind
    simp only [Bool.and_eq_true] at hpred
    have hpre : e <+: s := List.isPrefixOf_iff_prefix.mp hpred.2
    left
    rw [hn, ← List.prefix_iff_eq_take.mp hpre]
    exact hmem

/-- A successful `selectMatch` consumes at least one character. -/
theorem selectMatch_pos {emojis : List (List Char)} {s : List Char} {n : Nat}
    (h : selectMatch emojis s = some n) : 0 < n := by
  unfold selectMatch at h
  rcases hfind : findEmoji emojis s with _ | e
  · rw [hfind] at h
    obtain ⟨_, _, _, _, _, _, h18⟩ := discordMatch_shape h
    omega
  · rw [hfind] at h
    have hn : n = e.length := (Option.some.inj h).symm
    have hpred := List.find?_some hfind
    simp only [Bool.and_eq_true] at hpred
    have hne := hpred.1
    have : e ≠ [] := by
      intro hnil
      rw [hnil] at hne
      simp at hne
    rw [hn]
    exact List.length_pos.mpr this

/-- The chunks of the scanner concatenate back to the input. -/
theorem joinChunks_splitScanAux (emojis : List (List Char)) :
    ∀ (fuel : Nat) (acc rest : List Char),
      joinChunks (splitScanAux emojis fuel acc rest) = acc.reverse ++ rest
  | 0, acc, rest => by simp [splitScanAux, joinChunks]
  | fuel + 1, acc, [] => by simp [splitScanAux, joinChunks]
  | fuel + 1, acc, c :: rest => by
    simp only [splitScanAux]
    split
    · split
      · rw [joinChunks_splitScanAux emojis fuel (c :: acc) rest]
        simp
      · simp only [joinChunks]
        rw [joinChunks_splitScanAux emojis fuel [] ((c :: rest).drop _)]
        simp [List.take_append_drop]
    · rw [joinChunks_splitScanAux emojis fuel (c :: acc) rest]
      simp

/-- Every chunk the scanner tags as matched is the consumed prefix of a
successful `selectMatch`. -/
theorem splitScanAux_matched (emojis : List (List Char)) :
    ∀ (fuel : Nat) (acc rest : List Char) (c : List Char),
      (true, c) ∈ splitScanAux emojis fuel acc rest →
      ∃ s' n, selectMatch emojis s' = some n ∧ c = s'.take n
  | 0, acc, rest, c => by
    intro hmem
    simp [splitScanAux] at hmem
  | fuel + 1, acc, [], c => by
    intro hmem
    simp [splitScanAux] at hmem
  | fuel + 1, acc, ch :: rest, c => by
    intro hmem
    simp only [splitScanAux] at hmem
    split at hmem
    case _ nn heq =>
      split at hmem
      · exact splitScanAux_matched emojis fuel (ch :: acc) rest c hmem
      · rcases List.mem_cons.mp hmem with hx | hx
        · exact absurd (Prod.mk.inj hx).1 (by simp)
        · rcases List.mem_cons.mp hx with hy | hy
          · exact ⟨ch :: rest, nn, heq, (Prod.mk.inj hy).2⟩
          · exact splitScanAux_matched emojis fuel [] ((ch :: rest).drop nn) c hy
    case _ heq =>
      exact splitScanAux_matched emojis fuel (ch :: acc) rest c hmem

/-- `str.split(sep)` of a separator-free string is one segment. -/
theorem splitOnChar_no_sep (sep : Char) :
    ∀ (l acc : List Char), (∀ c ∈ l, c ≠ sep) →
      splitOnChar sep acc l = [acc.reverse ++ l]
  | [], acc, _ => by simp [splitOnChar]
  | c :: r, acc, h => by
    simp only [splitOnChar]
    rw [if_neg (h c (by simp))]
    rw [splitOnChar_no_sep sep r (c :: acc) (fun x hx => h x (by simp [hx]))]
    simp

/-- `str.split(sep)` peels one separator-free segment at a separator. -/
theorem splitOnChar_append_sep (sep : Char) :
    ∀ (l acc r : List Char), (∀ c ∈ l, c ≠ sep) →
      splitOnChar sep acc (l ++ sep :: r) = (acc.reverse ++ l) :: splitOnChar sep [] r
  | [], acc, r, _ => by simp [splitOnChar]
  | c :: l', acc, r, h => by
    simp only [List.cons_append, splitOnChar]
    rw [if_neg (h c (by simp))]
    show splitOnChar sep (c :: acc) (l' ++ sep :: r) = _
    rw [splitOnChar_append_sep sep l' (c :: acc) r (fun x hx => h x (by simp [hx]))]
    simp

/-- The id extraction `chunk.split(':')[-1][:-1]` recovers the digits of a
wire token. -/
theorem discordId_wireToken (a : Bool) (name digs : List Char)
    (hn : ∀ c ∈ name, isNameChar c = true) (hd : ∀ c ∈ digs, c.isDigit = true) :
    discordId (wireToken a name digs) = digs := by
  have hwt : wireToken a name digs =
      ('<' :: (if a then ['a'] else [])) ++ ':' :: (name ++ ':' :: (digs ++ ['>'])) := by
    simp [wireToken]
  have hhead : ∀ c ∈ '<' :: (if a then ['a'] else []), c ≠ ':' := by
    intro c hc
    rcases List.mem_cons.mp hc with rfl | hc'
    · decide
    · cases a with
      | true =>
        simp at hc'
        subst hc'
        decide
      | false => simp at hc'
  have hname : ∀ c ∈ name, c ≠ ':' := by
    intro c hc hcolon
    have := hn c hc
    rw [hcolon] at this
    simp [isNameChar] at this
  have hdigs : ∀ c ∈ digs ++ ['>'], c ≠ ':' := by
    intro c hc hcolon
    rcases List.mem_append.mp hc with hc' | hc'
    · have := hd c hc'
      rw [hcolon] at this
      simp at this
    · rw [List.mem_singleton] at hc'
      rw [hcolon] at hc'
      simp at hc'
  unfold discordId
  rw [hwt]
  rw [splitOnChar_append_sep ':' ('<' :: (if a then ['a'] else [])) [] _ hhead]
  rw [splitOnChar_append_sep ':' name [] _ hname]
  rw [splitOnChar_no_sep ':' (digs ++ ['>']) [] hdigs]
  simp [List.dropLast_concat]

/-- Chunk-wise reconstruction: given that every matched chunk is a known
emoji or a wire token, the parsed nodes can be re-wrapped into strings whose
concatenation is the concatenation of the chunks. -/
theorem chunks_rewrap (emojis : List (List Char))
    (h18 : ∀ e ∈ emojis, e ≠ [] ∧ e.length ≤ 18) :
    ∀ l : List (Bool × List Char),
      (∀ c, (true, c) ∈ l → MatchedOK emojis c) →
      ∃ rw, List.Forall₂ rewrapRel (l.filterMap nodeOfChunk) rw ∧
        rw.join = joinChunks l
  | [], _ => ⟨[], by simp, by simp [joinChunks]⟩
  | (m, c) :: rest, hok => by
    obtain ⟨rw, hf, hj⟩ := chunks_rewrap emojis h18 rest
      (fun c' hc' => hok c' (List.mem_cons_of_mem _ hc'))
    by_cases hc : c = []
    · subst hc
      refine ⟨rw, ?_, ?_⟩
      · have hnode : nodeOfChunk (m, []) = none := by simp [nodeOfChunk]
        rw [List.filterMap_cons, hnode]
        exact hf
      · simp [joinChunks, hj]
    · cases m with
      | false =>
        have hnode : nodeOfChunk (false, c) = some ⟨NodeType.text, c⟩ := by
          simp [nodeOfChunk, hc]
        refine ⟨c :: rw, ?_, ?_⟩
        · rw [List.filterMap_cons, hnode]
          refine List.Forall₂.cons ?_ hf
          simp [rewrapRel]
        · simp [List.join, joinChunks, hj]
      | true =>
        rcases hok c (List.mem_cons_self _ _) with hce | ⟨aflag, name, digs, hvn, hvi, hwt⟩
        · have hlen : ¬ c.length > 18 := by
            have := (h18 c hce).2
            omega
          have hnode : nodeOfChunk (true, c) = some ⟨NodeType.emoji, c⟩ := by
            simp [nodeOfChunk, hc, hlen]
          refine ⟨c :: rw, ?_, ?_⟩
          · rw [List.filterMap_cons, hnode]
            refine List.Forall₂.cons ?_ hf
            simp [rewrapRel]
          · simp [List.join, joinChunks, hj]
        · subst hwt
          have hlen : (wireToken aflag name digs).length > 18 := by
            rw [wireToken_length]
            rcases hvn with ⟨hne, _, _⟩
            rcases hvi with ⟨h17, _, _⟩
            have : 1 ≤ name.length := List.length_pos.mpr hne
            cases aflag <;> simp <;> omega
          have hnode : nodeOfChunk (true, wireToken aflag name digs) =
              some ⟨NodeType.discord_emoji, discordId (wireToken aflag name digs)⟩ := by
            simp [nodeOfChunk, hc, hlen]
          have hid : discordId (wireToken aflag name digs) = digs :=
            discordId_wireToken aflag name digs hvn.2.2 hvi.2.2
          refine ⟨wireToken aflag name digs :: rw, ?_, ?_⟩
          · rw [List.filterMap_cons, hnode, hid]
            refine List.Forall₂.cons ?_ hf
            simp only [rewrapRel, if_pos rfl]
            exact ⟨aflag, name, hvn, hvi, rfl⟩
          · simp [List.join, joinChunks, hj]

/-- Per-line reconstruction: the nodes of `_parse_line` re-wrap into strings
concatenating to the original line. -/
theorem parse_line_rewrap (emojis : List (List Char))
    (h18 : ∀ e ∈ emojis, e ≠ [] ∧ e.length ≤ 18) (line : List Char) :
    ∃ rw, List.Forall₂ rewrapRel (parse_line emojis line) rw ∧ rw.join = line := by
  obtain ⟨rw, hf, hj⟩ := chunks_rewrap emojis h18 (pySplit emojis line)
    (fun c hc => by
      obtain ⟨s', n, hsel, rfl⟩ := splitScanAux_matched emojis line.length [] line c hc
      exact selectMatch_matchedOK hsel)
  refine ⟨rw, hf, ?_⟩
  rw [hj]
  have := joinChunks_splitScanAux emojis line.length [] line
  simpa using this

/-- Line-list reconstruction. -/
theorem lines_rewrap (emojis : List (List Char))
    (h18 : ∀ e ∈ emojis, e ≠ [] ∧ e.length ≤ 18) :
    ∀ ls : List (List Char),
      ∃ rws, List.Forall₂ (List.Forall₂ rewrapRel) (ls.map (parse_line emojis)) rws ∧
        rws.map List.join = ls
  | [] => ⟨[], by simp, by simp⟩
  | l :: ls => by
    obtain ⟨rw, hf, hj⟩ := parse_line_rewrap emojis h18 l
    obtain ⟨rws, hfs, hjs⟩ := lines_rewrap emojis h18 ls
    exact ⟨rw :: rws, by simpa using List.Forall₂.cons hf hfs, by simp [hj, hjs]⟩

/-- `"\n".join` of a non-empty tail. -/
theorem pyJoinLines_cons {a : List Char} {l : List (List Char)} (h : l ≠ []) :
    pyJoinLines (a :: l) = a ++ '\n' :: pyJoinLines l := by
  cases l with
  | nil => exact absurd rfl h
  | cons b t => rfl

/-- `"\n".join` undoes `str.splitlines` on well-formed input. -/
theorem pySplitlinesAux_join :
    ∀ (rest acc : List Char),
      (∀ c ∈ rest, isLineBreak c = true → c = '\n') → rest.getLast? ≠ some '\n' →
      pyJoinLines (pySplitlinesAux acc rest) = acc.reverse ++ rest
  | [], acc, _, _ => by
    by_cases h : acc = []
    · subst h
      simp [pySplitlinesAux, pyJoinLines]
    · simp [pySplitlinesAux, h, pyJoinLines]
  | [c], acc, hbr, hlast => by
    have hcn : c ≠ '\n' := by
      intro h
      exact hlast (by simp [h])
    have hcb : isLineBreak c = false := by
      cases hb : isLineBreak c with
      | false => rfl
      | true => exact absurd (hbr c (by simp) hb) hcn
    simp [pySplitlinesAux, hcb, pyJoinLines]
  | c :: c2 :: r, acc, hbr, hlast => by
    have h1 : ¬(c = '\r' ∧ c2 = '\n') := by
      rintro ⟨rfl, _⟩
      have := hbr '\r' (by simp) (by decide)
      exact absurd this (by decide)
    simp only [pySplitlinesAux]
    rw [if_neg h1]
    have hlast' : (c2 :: r).getLast? ≠ some '\n' := by
      rw [List.getLast?_cons_cons] at hlast
      exact hlast
    by_cases hb : isLineBreak c
    · have hcn : c = '\n' := hbr c (by simp) hb
      rw [if_pos hb]
      have hne : pySplitlinesAux [] (c2 :: r) ≠ [] :=
        pySplitlinesAux_ne_nil (c2 :: r) [] (Or.inr (by simp))
      rw [pyJoinLines_cons hne]
      rw [pySplitlinesAux_join (c2 :: r) [] (fun x hx => hbr x (by simp [hx])) hlast']
      simp [hcn]
    · rw [if_neg hb]
      rw [pySplitlinesAux_join (c2 :: r) (c :: acc) (fun x hx => hbr x (by simp [hx])) hlast']
      simp

/-- C2: lossless tokenization — for every well-formed text (its only
line-break character is `\n` and it does not end in one) and every emoji
alternative list whose entries are non-empty and at most 18 characters (as
the real emoji data is), the nodes of `to_nodes` can be re-wrapped — text
and unicode-emoji nodes into their own content, Discord nodes into a
well-formed custom-emoji wire token carrying exactly the node's id — so that
joining the per-line concatenations with `\n` reproduces the original text;
in particular every emoji keeps its original position. -/
theorem c2_tokenization_lossless (emojis : List (List Char))
    (h18 : ∀ e ∈ emojis, e ≠ [] ∧ e.length ≤ 18)
    (text : List Char) (hw : wellFormed text) :
    ∃ rws : List (List (List Char)),
      List.Forall₂ (List.Forall₂ rewrapRel) (to_nodes emojis text) rws ∧
      pyJoinLines (rws.map List.join) = text := by
  obtain ⟨rws, hf, hj⟩ := lines_rewrap emojis h18 (pySplitlines text)
  refine ⟨rws, hf, ?_⟩
  rw [hj]
  exact pySplitlinesAux_join text [] hw.1 hw.2

/-- C2, witness: the hypotheses and conclusion at the concrete text
`He\n<:foo:12345678901234567>` with the alternative list `[e]`. -/
theorem c2_tokenization_witness :
    (∀ e ∈ [['e']], e ≠ [] ∧ (e : List Char).length ≤ 18) ∧
      wellFormed ('H' :: 'e' :: '\n' :: "<:foo:12345678901234567>".data) ∧
      ∃ rws : List (List (List Char)),
        List.Forall₂ (List.Forall₂ rewrapRel)
          (to_nodes [['e']] ('H' :: 'e' :: '\n' :: "<:foo:12345678901234567>".data)) rws ∧
        pyJoinLines (rws.map List.join) =
          'H' :: 'e' :: '\n' :: "<:foo:12345678901234567>".data :=
  ⟨by decide, by unfold wellFormed; decide,
    c2_tokenization_lossless [['e']] (by decide)
      ('H' :: 'e' :: '\n' :: "<:foo:12345678901234567>".data)
      (by unfold wellFormed; decide)⟩

end Pilmoji
